import Mathlib

/-!
Shallow embedding of `src/music_renamer.py` (the music-file batch renamer) and
proofs about the claims of its specification.

Conventions of the embedding:
* Python strings are Lean `String`s; the string-processing stages work on
  `List Char` and are converted back with `List.asString`.
* The regular-expression substitutions of `sanitize` (`\s+` collapse, `-{2,}`
  collapse, `\s*-\s*-\s*` normalisation) are embedded as recursive functions
  that perform the same leftmost, non-overlapping, greedy scan that `re.sub`
  performs; the `\s` class is embedded over its ASCII members.
* The program's configuration hard-codes Windows paths
  (`TARGET_PATH = r"C:\Users\path"`), so filesystem-dependent behaviour is
  embedded with the semantics of `pathlib` on that platform: glob matching,
  path equality and path ordering are case-insensitive (pathlib compares
  Windows paths by their case-folded string).  Path separators are written
  `/` in the model.
* The filesystem is modelled as an association list from path to file
  content; `shutil.copy2` reads the source binding and adds a binding for the
  destination.  A per-file I/O-error oracle models copy calls that raise.
* Metadata extraction (`mutagen`) is I/O; `process_file` is embedded with the
  extraction result (`Option TagRecord`) as a parameter.
-/

namespace MusicRenamer

/-! ## Configuration (music_renamer.py lines 15-72) -/

/-- `FILENAME_FORMAT` (line 25). -/
def FILENAME_FORMAT : String := "{title} _ {artist}"

/-- `FILENAME_FORMAT_NO_TRACK` (line 26). -/
def FILENAME_FORMAT_NO_TRACK : String := "{title} _ {artist}"

/-- `REPLACEMENTS` (lines 33-45), as Python parses it.  Lines 38-39 are
written with straight quotes, `(\"\"\", \"'\")`: the first quote triple opens a
Python triple-quoted string, so the two intended curly-quote rules actually
parse as one rule whose source pattern spans the two lines — comma, space,
quote, apostrophe, quote, parenthesis, comma, spaces, the comment text and
the newline — replaced by an apostrophe.  The table therefore has ten rules,
and no curly quote is ever replaced. -/
def REPLACEMENTS : List (String × String) :=
  [ (":", "-"), ("|", "-"), ("/", "-"), ("?", ""),
    (", \"'\"),      # Curly quote to apostrophe\n    (", "'"),
    ("\"", "'"),
    ("<", "("), (">", ")"), ("*", ""), ("\\", "-") ]

/-- The character class of `INVALID_CHARS = r'[<>:"/\\|?*]'` (line 68). -/
def INVALID_CHARS : List Char := ['<', '>', ':', '"', '/', '\\', '|', '?', '*']

/-- `SUPPORTED_EXTENSIONS` (line 72). -/
def SUPPORTED_EXTENSIONS : List String :=
  [".m4a", ".mp3", ".flac", ".ogg", ".opus", ".wma", ".aac", ".wav", ".aiff"]

/-! ## Sanitizer (music_renamer.py lines 136-162) -/

theorem length_dropWhile_le (p : Char → Bool) (l : List Char) :
    (l.dropWhile p).length ≤ l.length :=
  (List.dropWhile_sublist p).length_le

/-- The characters matched by the regex class `\s` on a Python `str`: the
Unicode whitespace set U+0009-000D, U+001C-001F, U+0020, U+0085, U+00A0,
U+1680, U+2000-200A, U+2028, U+2029, U+202F, U+205F, U+3000. -/
def isSp (c : Char) : Bool :=
  c = '\x09' || c = '\x0a' || c = '\x0b' || c = '\x0c' || c = '\x0d' ||
  c = '\x1c' || c = '\x1d' || c = '\x1e' || c = '\x1f' || c = ' ' ||
  c = '\x85' || c = '\xa0' || c = '\u1680' ||
  c = '\u2000' || c = '\u2001' || c = '\u2002' || c = '\u2003' || c = '\u2004' ||
  c = '\u2005' || c = '\u2006' || c = '\u2007' || c = '\u2008' || c = '\u2009' ||
  c = '\u200a' || c = '\u2028' || c = '\u2029' || c = '\u202f' || c = '\u205f' ||
  c = '\u3000'

/-- Fuel-indexed body of Python `str.replace(old, new)` for a non-empty
`old`: scan left to right, replace each leftmost non-overlapping occurrence
of `old`, and continue after it. -/
def replaceFuel (old new : List Char) : Nat → List Char → List Char
  | 0, l => l
  | _ + 1, [] => []
  | fuel + 1, c :: rest =>
    if old.isPrefixOf (c :: rest) then
      new ++ replaceFuel old new fuel ((c :: rest).drop old.length)
    else c :: replaceFuel old new fuel rest

/-- `str.replace(old, new)` on character lists (every `old` in the table is
non-empty). -/
def replaceList (old new l : List Char) : List Char := replaceFuel old new l.length l

/-- The replacement loop `for old, new in REPLACEMENTS: result = result.replace(old, new)`
(lines 148-149). -/
def applyReplacements (l : List Char) : List Char :=
  REPLACEMENTS.foldl (fun acc r => replaceList r.1.toList r.2.toList acc) l

/-- `INVALID_CHARS_PATTERN.sub('', result)` (line 152): delete every character
of the invalid class. -/
def removeInvalid (l : List Char) : List Char :=
  l.filter (fun c => !INVALID_CHARS.contains c)

/-- Fuel-indexed body of the `\s+` collapse; the fuel (at least the list
length) makes the recursion structural so that terms reduce. -/
def collapseWsFuel : Nat → List Char → List Char
  | 0, l => l
  | _ + 1, [] => []
  | fuel + 1, c :: rest =>
    if isSp c then ' ' :: collapseWsFuel fuel (rest.dropWhile isSp)
    else c :: collapseWsFuel fuel rest

/-- `re.sub(r'\s+', ' ', result)` (line 155): each maximal whitespace run
becomes a single space. -/
def collapseWs (l : List Char) : List Char := collapseWsFuel l.length l

/-- Fuel-indexed body of the `-{2,}` collapse. -/
def collapseDashesFuel : Nat → List Char → List Char
  | 0, l => l
  | _ + 1, [] => []
  | fuel + 1, c :: rest =>
    if c = '-' then '-' :: collapseDashesFuel fuel (rest.dropWhile (· = '-'))
    else c :: collapseDashesFuel fuel rest

/-- `re.sub(r'-{2,}', '-', result)` (line 156): each maximal run of dashes
becomes a single dash (runs of length one are returned unchanged, which the
collapse also does). -/
def collapseDashes (l : List Char) : List Char := collapseDashesFuel l.length l

/-- One attempt of the pattern `\s*-\s*-\s*` at the head of the list: greedy
whitespace, a dash, greedy whitespace, a dash, greedy trailing whitespace.
Returns the remainder after the match. -/
def dashPairMatch (l : List Char) : Option (List Char) :=
  match l.dropWhile isSp with
  | '-' :: t =>
    match t.dropWhile isSp with
    | '-' :: u => some (u.dropWhile isSp)
    | _ => none
  | _ => none

theorem dashPairMatch_length {l r : List Char} (h : dashPairMatch l = some r) :
    r.length < l.length := by
  have h1 : (l.dropWhile isSp).length ≤ l.length := length_dropWhile_le isSp l
  unfold dashPairMatch at h
  split at h
  case _ t hd =>
    have h2 : (t.dropWhile isSp).length ≤ t.length := length_dropWhile_le isSp t
    split at h
    case _ u ht =>
      have h3 : (u.dropWhile isSp).length ≤ u.length := length_dropWhile_le isSp u
      obtain rfl : u.dropWhile isSp = r := by simpa using h
      rw [hd] at h1
      rw [ht] at h2
      simp only [List.length_cons] at h1 h2
      omega
    case _ => exact absurd h (by simp)
  case _ => exact absurd h (by simp)

/-- Fuel-indexed body of the `\s*-\s*-\s*` normalisation. -/
def normDashPairFuel : Nat → List Char → List Char
  | 0, l => l
  | _ + 1, [] => []
  | fuel + 1, c :: rest =>
    match dashPairMatch (c :: rest) with
    | some r => ' ' :: '-' :: ' ' :: normDashPairFuel fuel r
    | none => c :: normDashPairFuel fuel rest

/-- `re.sub(r'\s*-\s*-\s*', ' - ', result)` (line 157): scan left to right,
replace each leftmost non-overlapping match by `" - "`, and continue after the
match. -/
def normDashPair (l : List Char) : List Char := normDashPairFuel l.length l

theorem normDashPairFuel_succ_cons (f : Nat) (c : Char) (rest : List Char) :
    normDashPairFuel (f+1) (c :: rest) =
      match dashPairMatch (c :: rest) with
      | some r => ' ' :: '-' :: ' ' :: normDashPairFuel f r
      | none => c :: normDashPairFuel f rest := rfl

theorem collapseWsFuel_eq :
    ∀ (f1 f2 : Nat) (l : List Char), l.length ≤ f1 → l.length ≤ f2 →
      collapseWsFuel f1 l = collapseWsFuel f2 l := by
  intro f1
  induction f1 with
  | zero =>
    intro f2 l h1 _
    obtain rfl : l = [] := List.length_eq_zero.mp (Nat.le_zero.mp h1)
    cases f2 <;> rfl
  | succ f1' ih =>
    intro f2 l h1 h2
    cases l with
    | nil => cases f2 <;> rfl
    | cons c rest =>
      cases f2 with
      | zero => simp at h2
      | succ f2' =>
        simp only [List.length_cons, Nat.succ_le_succ_iff] at h1 h2
        have hd := length_dropWhile_le isSp rest
        simp only [collapseWsFuel]
        by_cases hc : isSp c
        · simp only [if_pos hc]
          exact congrArg _ (ih f2' (rest.dropWhile isSp) (by omega) (by omega))
        · simp only [if_neg hc]
          exact congrArg _ (ih f2' rest h1 h2)

theorem collapseWs_nil : collapseWs [] = [] := rfl

theorem collapseWs_cons (c : Char) (rest : List Char) :
    collapseWs (c :: rest) =
      if isSp c then ' ' :: collapseWs (rest.dropWhile isSp)
      else c :: collapseWs rest := by
  have hd := length_dropWhile_le isSp rest
  simp only [collapseWs, List.length_cons, collapseWsFuel]
  by_cases hc : isSp c
  · simp only [if_pos hc]
    exact congrArg _
      (collapseWsFuel_eq rest.length (rest.dropWhile isSp).length (rest.dropWhile isSp)
        (by omega) le_rfl)
  · simp only [if_neg hc]

theorem collapseDashesFuel_eq :
    ∀ (f1 f2 : Nat) (l : List Char), l.length ≤ f1 → l.length ≤ f2 →
      collapseDashesFuel f1 l = collapseDashesFuel f2 l := by
  intro f1
  induction f1 with
  | zero =>
    intro f2 l h1 _
    obtain rfl : l = [] := List.length_eq_zero.mp (Nat.le_zero.mp h1)
    cases f2 <;> rfl
  | succ f1' ih =>
    intro f2 l h1 h2
    cases l with
    | nil => cases f2 <;> rfl
    | cons c rest =>
      cases f2 with
      | zero => simp at h2
      | succ f2' =>
        simp only [List.length_cons, Nat.succ_le_succ_iff] at h1 h2
        have hd := length_dropWhile_le (· = '-') rest
        simp only [collapseDashesFuel]
        by_cases hc : c = '-'
        · simp only [if_pos hc]
          exact congrArg _ (ih f2' (rest.dropWhile (fun x => x = '-')) (by omega) (by omega))
        · simp only [if_neg hc]
          exact congrArg _ (ih f2' rest h1 h2)

theorem collapseDashes_nil : collapseDashes [] = [] := rfl

theorem collapseDashes_cons (c : Char) (rest : List Char) :
    collapseDashes (c :: rest) =
      if c = '-' then '-' :: collapseDashes (rest.dropWhile (· = '-'))
      else c :: collapseDashes rest := by
  have hd := length_dropWhile_le (· = '-') rest
  simp only [collapseDashes, List.length_cons, collapseDashesFuel]
  by_cases hc : c = '-'
  · simp only [if_pos hc]
    exact congrArg _
      (collapseDashesFuel_eq rest.length (rest.dropWhile (fun x => x = '-')).length
        (rest.dropWhile (fun x => x = '-')) (by omega) le_rfl)
  · simp only [if_neg hc]

theorem normDashPairFuel_eq :
    ∀ (f1 f2 : Nat) (l : List Char), l.length ≤ f1 → l.length ≤ f2 →
      normDashPairFuel f1 l = normDashPairFuel f2 l := by
  intro f1
  induction f1 with
  | zero =>
    intro f2 l h1 _
    obtain rfl : l = [] := List.length_eq_zero.mp (Nat.le_zero.mp h1)
    cases f2 <;> rfl
  | succ f1' ih =>
    intro f2 l h1 h2
    cases l with
    | nil => cases f2 <;> rfl
    | cons c rest =>
      cases f2 with
      | zero => simp at h2
      | succ f2' =>
        simp only [List.length_cons, Nat.succ_le_succ_iff] at h1 h2
        cases hm : dashPairMatch (c :: rest) with
        | some r =>
          have hr := dashPairMatch_length hm
          simp only [List.length_cons] at hr
          rw [normDashPairFuel_succ_cons, normDashPairFuel_succ_cons, hm]
          exact congrArg (fun x => ' ' :: '-' :: ' ' :: x) (ih f2' r (by omega) (by omega))
        | none =>
          rw [normDashPairFuel_succ_cons, normDashPairFuel_succ_cons, hm]
          exact congrArg _ (ih f2' rest h1 h2)

theorem normDashPair_nil : normDashPair [] = [] := rfl

theorem normDashPair_cons_match {c : Char} {rest r : List Char}
    (h : dashPairMatch (c :: rest) = some r) :
    normDashPair (c :: rest) = ' ' :: '-' :: ' ' :: normDashPair r := by
  have hr := dashPairMatch_length h
  simp only [List.length_cons] at hr
  simp only [normDashPair, List.length_cons]
  rw [normDashPairFuel_succ_cons, h]
  exact congrArg (fun x => ' ' :: '-' :: ' ' :: x)
    (normDashPairFuel_eq rest.length r.length r (by omega) le_rfl)

theorem normDashPair_cons_none {c : Char} {rest : List Char}
    (h : dashPairMatch (c :: rest) = none) :
    normDashPair (c :: rest) = c :: normDashPair rest := by
  simp only [normDashPair, List.length_cons]
  rw [normDashPairFuel_succ_cons, h]

/-- The strip class of `result.strip(' .-')` (line 160). -/
def isStripChar (c : Char) : Bool := c = ' ' || c = '.' || c = '-'

/-- `result.strip(' .-')` (line 160): drop leading and trailing spaces, dots
and dashes. -/
def stripEnds (l : List Char) : List Char :=
  ((l.dropWhile isStripChar).reverse.dropWhile isStripChar).reverse

/-- The sanitized text of `sanitize` (lines 136-162), for a non-`None`
input. -/
def sanitizeText (s : String) : String :=
  (stripEnds (normDashPair (collapseDashes (collapseWs
    (removeInvalid (applyReplacements s.toList)))))).asString

/-- `sanitize(text)` (lines 136-162): returns the sanitized text and the flag
`result != original`. -/
def sanitize (s : String) : String × Bool :=
  (sanitizeText s, sanitizeText s != s)

/-! ## String and path helpers

Paths are modelled with `/` as separator.  Per the Windows platform the
configuration targets, case-folding is ASCII (`str.lower`/`str.upper` act on
ASCII letters; the paths and extensions involved are ASCII). -/

/-- `str.lower()`. -/
def strLower (s : String) : String := (s.toList.map Char.toLower).asString

/-- `str.upper()`. -/
def strUpper (s : String) : String := (s.toList.map Char.toUpper).asString

def splitSlashAux : List Char → List Char → List (List Char)
  | [], acc => [acc.reverse]
  | c :: rest, acc =>
    if c = '/' then acc.reverse :: splitSlashAux rest []
    else splitSlashAux rest (c :: acc)

/-- The components of a path. -/
def pathParts (p : String) : List String := (splitSlashAux p.toList []).map List.asString

/-- `Path.name`: the final component. -/
def lastComponent (p : String) : String := (pathParts p).getLastD p

/-- `dir / name` on paths. -/
def joinPath (dir name : String) : String := dir ++ "/" ++ name

/-- `name.rfind('.')`: index of the last dot, if any. -/
def rfindDotAux : List Char → Nat → Option Nat → Option Nat
  | [], _, best => best
  | c :: rest, i, best => rfindDotAux rest (i + 1) (if c = '.' then some i else best)

/-- `Path.suffix`: the extension of the final component, per pathlib the
segment from the last dot when `0 < i < len(name) - 1`, else empty. -/
def pathSuffix (p : String) : String :=
  match rfindDotAux (lastComponent p).toList 0 none with
  | none => ""
  | some i =>
    if 0 < i ∧ i < (lastComponent p).toList.length - 1 then
      ((lastComponent p).toList.drop i).asString
    else ""

/-- `Path.stem`: the final component without its `pathSuffix`. -/
def pathStem (p : String) : String :=
  match rfindDotAux (lastComponent p).toList 0 none with
  | none => ((lastComponent p).toList).asString
  | some i =>
    if 0 < i ∧ i < (lastComponent p).toList.length - 1 then
      ((lastComponent p).toList.take i).asString
    else ((lastComponent p).toList).asString

/-- Sublist-contiguous occurrence check, Python's `pat in s` on strings. -/
def containsList (pat : List Char) : List Char → Bool
  | [] => pat.isEmpty
  | c :: rest => pat.isPrefixOf (c :: rest) || containsList pat rest

/-- Python `pat in s` (substring). -/
def strContains (s pat : String) : Bool := containsList pat.toList s.toList

def strEndsWith (s suf : String) : Bool := suf.toList.isSuffixOf s.toList

/-- Python truthiness of an optional string: `None` and `""` are falsy. -/
def truthyOpt : Option String → Bool
  | none => false
  | some s => s != ""

/-! ## Decimal rendering, `str(n)` and `f"{n:02d}"` -/

def digitChar (n : Nat) : Char := Char.ofNat (48 + n)

def natDigitsFuel : Nat → Nat → List Char
  | 0, _ => []
  | f + 1, n => if n < 10 then [digitChar n] else natDigitsFuel f (n / 10) ++ [digitChar (n % 10)]

/-- Decimal rendering of a natural number, `str(n)`. -/
def natToString (n : Nat) : String := (natDigitsFuel (n + 1) n).asString

/-- Decimal rendering of an integer. -/
def intToString (n : Int) : String :=
  if n < 0 then "-" ++ natToString n.natAbs else natToString n.natAbs

/-- `f"{n:02d}"`: zero-pad to width 2 (the sign counts toward the width). -/
def formatInt02 (n : Int) : String :=
  let s := intToString n
  if s.length < 2 then "0" ++ s else s

/-- Digit-string value accumulator. -/
def parseDigits : List Char → Nat → Option Nat
  | [], acc => some acc
  | c :: rest, acc =>
    if c.isDigit then parseDigits rest (acc * 10 + (c.toNat - 48)) else none

/-- Python `int(track)` restricted to the sign-and-digits forms that track
tags carry (Python additionally tolerates surrounding whitespace and interior
underscores). -/
def parseInt? (s : String) : Option Int :=
  match s.toList with
  | [] => none
  | '-' :: rest => if rest.isEmpty then none else (parseDigits rest 0).map (fun m => -(m : Int))
  | '+' :: rest => if rest.isEmpty then none else (parseDigits rest 0).map (fun m => (m : Int))
  | l => (parseDigits l 0).map (fun m => (m : Int))

/-! ## Data model -/

/-- The metadata dict built by `get_metadata` (lines 97-102): keys artist,
album, track_number, title, each possibly `None`. -/
structure TagRecord where
  artist : Option String
  album : Option String
  title : Option String
  track_number : Option String
  deriving DecidableEq

/-- `metadata.get(field)`. -/
def TagRecord.get (m : TagRecord) (f : String) : Option String :=
  if f = "artist" then m.artist
  else if f = "album" then m.album
  else if f = "title" then m.title
  else if f = "track_number" then m.track_number
  else none

/-- `metadata[field] = v`. -/
def TagRecord.set (m : TagRecord) (f : String) (v : Option String) : TagRecord :=
  if f = "artist" then { m with artist := v }
  else if f = "album" then { m with album := v }
  else if f = "title" then { m with title := v }
  else if f = "track_number" then { m with track_number := v }
  else m

/-- The three failure reason strings of `process_file`, as tagged values; the
missing-fields reason carries the list that the code joins into its
message. -/
inductive Reason where
  | unsupportedFormat
  | couldNotReadMetadata
  | missingMetadata (fields : List String)
  deriving DecidableEq

/-- `RenameResult` (lines 75-84).  `sanitize_details` is the field-to-pair
mapping, as a list of (field, original, sanitized) in insertion order. -/
structure RenameResult where
  original_path : String
  new_name : Option String := none
  success : Bool := true
  reason : Option Reason := none
  was_sanitized : Bool := false
  sanitize_details : List (String × String × String) := []
  deriving DecidableEq

/-- The two filename templates of the configuration. -/
structure Config where
  fmt : String
  fmtNoTrack : String
  deriving DecidableEq

/-- The configured values (lines 25-26). -/
def defaultConfig : Config := ⟨FILENAME_FORMAT, FILENAME_FORMAT_NO_TRACK⟩

/-! ## Filename generator (music_renamer.py lines 165-197) -/

/-- The values handed to `fmt.format(...)`. -/
structure FieldVals where
  artist : String
  album : String
  track : String
  title : String
  deriving DecidableEq

/-- Fuel-indexed body of `str.format`: scan the template left to right,
replacing each of the four known placeholders by its value; substituted
values are not rescanned.  (Python would raise on a placeholder outside the
four; the templates use only these.) -/
def substPlaceholdersFuel (v : FieldVals) : Nat → List Char → List Char
  | 0, l => l
  | _ + 1, [] => []
  | fuel + 1, c :: rest =>
    if "{artist}".toList.isPrefixOf (c :: rest) then
      v.artist.toList ++ substPlaceholdersFuel v fuel (rest.drop 7)
    else if "{album}".toList.isPrefixOf (c :: rest) then
      v.album.toList ++ substPlaceholdersFuel v fuel (rest.drop 6)
    else if "{track}".toList.isPrefixOf (c :: rest) then
      v.track.toList ++ substPlaceholdersFuel v fuel (rest.drop 6)
    else if "{title}".toList.isPrefixOf (c :: rest) then
      v.title.toList ++ substPlaceholdersFuel v fuel (rest.drop 6)
    else c :: substPlaceholdersFuel v fuel rest

/-- `fmt.format(artist=…, album=…, track=…, title=…)` (lines 190-195). -/
def formatTemplate (fmt : String) (v : FieldVals) : String :=
  (substPlaceholdersFuel v fmt.toList.length fmt.toList).asString

/-- The zero-padding of a truthy track value (lines 175-179): numeric parse
then `f"{n:02d}"`, or the raw string when parsing fails. -/
def paddedTrack (md : TagRecord) : String :=
  match parseInt? (md.track_number.getD "") with
  | some n => formatInt02 n
  | none => md.track_number.getD ""

/-- The keyword values handed to `fmt.format` at lines 190-195: missing
fields become the empty string (`x or ''`). -/
def fieldVals (md : TagRecord) (trackVal : String) : FieldVals :=
  { artist := md.artist.getD ""
    album := md.album.getD ""
    track := trackVal
    title := md.title.getD "" }

/-- `generate_new_filename(metadata, extension)` (lines 165-197). -/
def generate_new_filename (cfg : Config) (metadata : TagRecord) (extension : String) : String :=
  let track_padded : Option String :=
    if truthyOpt metadata.track_number then some (paddedTrack metadata) else none
  let fmt := if truthyOpt track_padded && strContains cfg.fmt "{track}" then cfg.fmt
             else cfg.fmtNoTrack
  formatTemplate fmt (fieldVals metadata (track_padded.getD "")) ++ extension

/-- `get_required_fields()` (lines 200-212).  The code accumulates a Python
set while walking the two formats; the model lists the possible fields in the
fixed order artist, album, title — only membership in the set is consumed. -/
def get_required_fields (cfg : Config) : List String :=
  (if strContains cfg.fmt "{artist}" || strContains cfg.fmtNoTrack "{artist}" then ["artist"] else []) ++
  (if strContains cfg.fmt "{album}" || strContains cfg.fmtNoTrack "{album}" then ["album"] else []) ++
  (if strContains cfg.fmt "{title}" || strContains cfg.fmtNoTrack "{title}" then ["title"] else [])

/-! ## Pipeline (music_renamer.py lines 215-275) -/

/-- One iteration of the sanitize loop (lines 253-262), carried over the
accumulator (sanitized metadata, details, was_sanitized). -/
def sanitizeFieldStep (md : TagRecord)
    (acc : TagRecord × List (String × String × String) × Bool) (f : String) :
    TagRecord × List (String × String × String) × Bool :=
  let original := md.get f
  if truthyOpt original then
    let o := original.getD ""
    let sRes := sanitize o
    let sm2 := acc.1.set f (some sRes.1)
    if sRes.2 then (sm2, acc.2.1 ++ [(f, o, sRes.1)], true)
    else (sm2, acc.2.1, acc.2.2)
  else
    (acc.1.set f original, acc.2.1, acc.2.2)

/-- `process_file(filepath)` (lines 215-275), with the metadata-extraction
result (`get_metadata` is I/O) supplied as a parameter. -/
def process_file (cfg : Config) (filepath : String) (metadata : Option TagRecord) :
    RenameResult :=
  let extension := strLower (pathSuffix filepath)
  if !SUPPORTED_EXTENSIONS.contains extension then
    { original_path := filepath, success := false, reason := some .unsupportedFormat }
  else
    match metadata with
    | none => { original_path := filepath, success := false, reason := some .couldNotReadMetadata }
    | some md =>
      let required := get_required_fields cfg
      let missing := required.filter (fun f => !truthyOpt (md.get f))
      if missing ≠ [] then
        { original_path := filepath, success := false, reason := some (.missingMetadata missing) }
      else
        let step := ["artist", "album", "title"].foldl (sanitizeFieldStep md) (⟨none, none, none, none⟩, [], false)
        let sm := { step.1 with track_number := md.track_number }
        { original_path := filepath,
          new_name := some (generate_new_filename cfg sm extension),
          success := true,
          was_sanitized := step.2.2,
          sanitize_details := step.2.1 }

/-! ## Directory scanner (music_renamer.py lines 296-304)

`rglob` pattern matching, `Path` equality and `Path` ordering are those of
pathlib on the Windows platform the configuration targets: all three compare
case-insensitively, and `PurePath.__lt__` compares the tuples of case-folded
path components (pathlib's `_cparts`), not the flat path strings.  The
directory tree is supplied as the list of file paths under the root. -/

/-- Lexicographic (code-point) strict comparison of character lists: Python's
string `<`. -/
def lexLt : List Char → List Char → Bool
  | [], [] => false
  | [], _ :: _ => true
  | _ :: _, [] => false
  | a :: as, b :: bs => if a < b then true else if b < a then false else lexLt as bs

/-- Python tuple `<=` on tuples of strings, with component strict order
`lexLt`: elementwise comparison, a strict prefix sorting first. -/
def partsLe : List (List Char) → List (List Char) → Bool
  | [], _ => true
  | _ :: _, [] => false
  | a :: as, b :: bs => if lexLt a b then true else if lexLt b a then false else partsLe as bs

/-- Python string `p < q`. -/
def strLt (p q : String) : Prop := lexLt p.toList q.toList = true

/-- The case-folded component list of a path: pathlib's `_cparts` on Windows
(ASCII case-folding, per the model's conventions above). -/
def normParts (p : String) : List (List Char) :=
  (pathParts p).map (fun s => (strLower s).toList)

/-- The order that sorting a list of Windows paths uses: pathlib's
`PurePath.__lt__` compares the tuples of case-folded components. -/
def normLe (p q : String) : Prop := partsLe (normParts p) (normParts q) = true

instance : DecidableRel normLe := fun p q => by unfold normLe; infer_instance

instance : DecidableRel strLt := fun p q => by unfold strLt; infer_instance

/-- `dir_path.rglob(f"*{ext}")` membership test for one file path. -/
def globMatch (ext : String) (p : String) : Bool :=
  strEndsWith (strLower (lastComponent p)) (strLower ext)

/-- `scan_directory`'s enumeration (lines 296-304): glob twice per extension
(lowercase and uppercase pattern), deduplicate, sort. -/
def scan_directory (tree : List String) : List String :=
  let audio := SUPPORTED_EXTENSIONS.flatMap
    (fun ext => tree.filter (globMatch ext) ++ tree.filter (globMatch (strUpper ext)))
  audio.dedup.insertionSort normLe

/-! ## Executor (music_renamer.py lines 378-464)

The filesystem is an association list path ↦ file content; existence tests
use the case-folded path, as on the target platform.  `shutil.copy2` reads
the source binding and prepends a binding for the destination; a copy that
raises (modelled by the error oracle, or a missing source) leaves the
filesystem unchanged and is recorded in the error list. -/

abbrev FS : Type := List (String × String)

/-- Content at a path, case-insensitively. -/
def fsFind (fs : FS) (p : String) : Option String :=
  (fs.find? (fun kv => strLower kv.1 == strLower p)).map (fun kv => kv.2)

/-- `dest_path.exists()`. -/
def fsExists (fs : FS) (p : String) : Bool := (fsFind fs p).isSome

/-- `f"{base} ({counter}){ext}"` (lines 411, 440). -/
def candidateName (base : String) (k : Nat) (ext : String) : String :=
  base ++ " (" ++ natToString k ++ ")" ++ ext

/-- The collision probing loop `while dest_path.exists(): …` (lines 409-412,
438-441), counting up from `k`; the fuel (one more than the number of
bindings) is enough for the loop to reach a free name. -/
def probeFuel (fs : FS) (dir base ext : String) : Nat → Nat → String
  | 0, k => joinPath dir (candidateName base k ext)
  | fuel + 1, k =>
    let cand := joinPath dir (candidateName base k ext)
    if fsExists fs cand then probeFuel fs dir base ext fuel (k + 1) else cand

/-- Collision handling for one destination (lines 404-413): keep the
destination if free, else probe `base (1)ext`, `base (2)ext`, …. -/
def resolveCollision (fs : FS) (dir name : String) : String :=
  let dest := joinPath dir name
  if fsExists fs dest then
    probeFuel fs dir (pathStem dest) (pathSuffix dest) (fs.length + 1) 1
  else dest

/-- `shutil.copy2(src, dest)`: read the source, bind the destination. -/
def copyFile (fs : FS) (src dest : String) : FS :=
  match fsFind fs src with
  | some content => (dest, content) :: fs
  | none => fs

/-- One iteration of the success-copy loop (lines 400-425); `err` tells which
source paths make `copy2` raise. -/
def execSuccessStep (err : String → Bool) (output_dir : String) (fs : FS) (r : RenameResult) : FS :=
  let dest := resolveCollision fs output_dir (r.new_name.getD "")
  if err r.original_path then fs else copyFile fs r.original_path dest

/-- One iteration of the failed-copy loop (lines 430-447): destination is
`_failed/` plus the original name, with the same collision probing. -/
def execFailedStep (err : String → Bool) (failed_dir : String) (fs : FS) (r : RenameResult) : FS :=
  let dest := resolveCollision fs failed_dir (lastComponent r.original_path)
  if err r.original_path then fs else copyFile fs r.original_path dest

/-- `execute_copy_rename(successful, failed, output_dir)` (lines 378-464), as
the filesystem transformation it performs. -/
def execute_copy_rename (err : String → Bool) (output_dir : String)
    (successful failed : List RenameResult) (fs0 : FS) : FS :=
  let fs1 := successful.foldl (execSuccessStep err output_dir) fs0
  failed.foldl (execFailedStep err (joinPath output_dir "_failed")) fs1

example : sanitize "a - - - b" = ("a - - b", true) := by decide
example : sanitize "a - - b" = ("a - b", true) := by decide
example : sanitize "a  b" = ("a b", true) := by decide
example : sanitize "AC/DC" = ("AC-DC", true) := by decide
example : sanitize "T.N.T" = ("T.N.T", false) := by decide
example : sanitize "x- - - -y" = ("x -  - y", true) := by decide

example :
    process_file ⟨"{track} {title} _ {artist}", "{title} _ {artist}"⟩ "src/song.mp3"
      (some ⟨some "AC/DC", none, some "T.N.T", some "3"⟩) =
    { original_path := "src/song.mp3", new_name := some "03 T.N.T _ AC-DC.mp3",
      success := true, reason := none, was_sanitized := true,
      sanitize_details := [("artist", "AC/DC", "AC-DC")] } := by decide


/-! ## Pipeline lemmas -/

theorem sanitizeFieldStep_inv (md : TagRecord)
    (acc : TagRecord × List (String × String × String) × Bool) (f : String)
    (h : acc.2.1 ≠ [] ↔ acc.2.2 = true) :
    (sanitizeFieldStep md acc f).2.1 ≠ [] ↔ (sanitizeFieldStep md acc f).2.2 = true := by
  unfold sanitizeFieldStep
  by_cases h1 : truthyOpt (md.get f)
  · simp only [h1, if_true]
    cases hs : (sanitize ((md.get f).getD "")).2
    · simpa [hs] using h
    · simp [hs]
  · simp only [Bool.not_eq_true] at h1
    simpa [h1] using h

theorem sanitizeLoop_inv (md : TagRecord) :
    ∀ (fields : List String) (acc : TagRecord × List (String × String × String) × Bool),
      (acc.2.1 ≠ [] ↔ acc.2.2 = true) →
      ((fields.foldl (sanitizeFieldStep md) acc).2.1 ≠ [] ↔
        (fields.foldl (sanitizeFieldStep md) acc).2.2 = true) := by
  intro fields
  induction fields with
  | nil => intro acc h; exact h
  | cons f fs ih => intro acc h; exact ih _ (sanitizeFieldStep_inv md acc f h)

/-- C9: every outcome of `process_file` has exactly one variant populated:
the success flag is set iff `new_name` is set iff `reason` is absent, and the
sanitize-details mapping is non-empty iff the `was_sanitized` flag is set. -/
theorem process_file_outcome_invariant (cfg : Config) (filepath : String)
    (metadata : Option TagRecord) :
    ((process_file cfg filepath metadata).success = true ↔
      ((process_file cfg filepath metadata).new_name).isSome = true) ∧
    ((process_file cfg filepath metadata).success = true ↔
      (process_file cfg filepath metadata).reason = none) ∧
    ((process_file cfg filepath metadata).sanitize_details ≠ [] ↔
      (process_file cfg filepath metadata).was_sanitized = true) := by
  unfold process_file
  by_cases hext : SUPPORTED_EXTENSIONS.contains (strLower (pathSuffix filepath))
  · simp only [hext, Bool.not_true, Bool.false_eq_true, if_false]
    cases metadata with
    | none => simp
    | some md =>
      by_cases hm : (get_required_fields cfg).filter (fun f => !truthyOpt (md.get f)) ≠ []
      · simp [hm]
      · simp only [hm, if_false]
        refine ⟨by simp, by simp, ?_⟩
        exact sanitizeLoop_inv md ["artist", "album", "title"]
          (⟨none, none, none, none⟩, [], false) (by simp)
  · simp only [Bool.not_eq_true] at hext
    have hext' : strLower (pathSuffix filepath) ∉ SUPPORTED_EXTENSIONS := by simpa using hext
    simp [hext']

theorem process_file_missing_eq (cfg : Config) (filepath : String) (md : TagRecord)
    (hext : SUPPORTED_EXTENSIONS.contains (strLower (pathSuffix filepath)) = true)
    (hne : (get_required_fields cfg).filter (fun f => !truthyOpt (md.get f)) ≠ []) :
    process_file cfg filepath (some md) =
      { original_path := filepath, success := false,
        reason := some (.missingMetadata
          ((get_required_fields cfg).filter (fun f => !truthyOpt (md.get f)))) } := by
  have hext' : strLower (pathSuffix filepath) ∈ SUPPORTED_EXTENSIONS := by simpa using hext
  unfold process_file
  simp [hext', hne]

theorem mem_required_fields (cfg : Config) (f : String) :
    f ∈ get_required_fields cfg →
      f = "artist" ∨ f = "album" ∨ f = "title" := by
  unfold get_required_fields
  intro h
  rcases List.mem_append.mp h with h' | h'
  · rcases List.mem_append.mp h' with h'' | h''
    · left
      by_cases hc : strContains cfg.fmt "{artist}" || strContains cfg.fmtNoTrack "{artist}" <;>
        simp_all
    · right; left
      by_cases hc : strContains cfg.fmt "{album}" || strContains cfg.fmtNoTrack "{album}" <;>
        simp_all
  · right; right
    by_cases hc : strContains cfg.fmt "{title}" || strContains cfg.fmtNoTrack "{title}" <;>
      simp_all

/-- C4: the statically-required set is exactly the subset of
artist/album/title whose placeholder occurs in one of the two templates
(track is never required), and a file lacking one or more required fields
fails with the full list of missing required fields. -/
theorem required_fields_gating :
    (∀ cfg : Config,
      ("artist" ∈ get_required_fields cfg ↔
        (strContains cfg.fmt "{artist}" = true ∨ strContains cfg.fmtNoTrack "{artist}" = true)) ∧
      ("album" ∈ get_required_fields cfg ↔
        (strContains cfg.fmt "{album}" = true ∨ strContains cfg.fmtNoTrack "{album}" = true)) ∧
      ("title" ∈ get_required_fields cfg ↔
        (strContains cfg.fmt "{title}" = true ∨ strContains cfg.fmtNoTrack "{title}" = true)) ∧
      ("track_number" ∉ get_required_fields cfg) ∧
      (∀ f, f ∈ get_required_fields cfg → f = "artist" ∨ f = "album" ∨ f = "title")) ∧
    (∀ (cfg : Config) (filepath : String) (md : TagRecord),
      SUPPORTED_EXTENSIONS.contains (strLower (pathSuffix filepath)) = true →
      (∃ f0 ∈ get_required_fields cfg, truthyOpt (md.get f0) = false) →
      ∃ l, process_file cfg filepath (some md) =
          { original_path := filepath, success := false,
            reason := some (.missingMetadata l) } ∧
        ∀ f, f ∈ l ↔ (f ∈ get_required_fields cfg ∧ truthyOpt (md.get f) = false)) := by
  constructor
  · intro cfg
    refine ⟨?_, ?_, ?_, ?_, mem_required_fields cfg⟩ <;>
    · unfold get_required_fields
      by_cases h1 : strContains cfg.fmt "{artist}" || strContains cfg.fmtNoTrack "{artist}" <;>
      by_cases h2 : strContains cfg.fmt "{album}" || strContains cfg.fmtNoTrack "{album}" <;>
      by_cases h3 : strContains cfg.fmt "{title}" || strContains cfg.fmtNoTrack "{title}" <;>
        simp_all
  · intro cfg filepath md hext hmiss
    obtain ⟨f0, hf0, hf0m⟩ := hmiss
    have hne : (get_required_fields cfg).filter (fun f => !truthyOpt (md.get f)) ≠ [] := by
      intro hempty
      have : f0 ∈ (get_required_fields cfg).filter (fun f => !truthyOpt (md.get f)) :=
        List.mem_filter.mpr ⟨hf0, by simp [hf0m]⟩
      simp [hempty] at this
    refine ⟨_, process_file_missing_eq cfg filepath md hext hne, ?_⟩
    intro f
    constructor
    · intro hf
      obtain ⟨h1, h2⟩ := List.mem_filter.mp hf
      exact ⟨h1, by simpa using h2⟩
    · intro ⟨h1, h2⟩
      exact List.mem_filter.mpr ⟨h1, by simp [h2]⟩

theorem required_fields_gating_witness :
    ∃ l, process_file ⟨"{title} _ {artist}", "{title} _ {artist}"⟩ "src/song.mp3"
        (some ⟨none, some "Album", some "Title", some "3"⟩) =
        { original_path := "src/song.mp3", success := false,
          reason := some (.missingMetadata l) } ∧
      ∀ f, f ∈ l ↔
        (f ∈ get_required_fields ⟨"{title} _ {artist}", "{title} _ {artist}"⟩ ∧
          truthyOpt ((⟨none, some "Album", some "Title", some "3"⟩ : TagRecord).get f) = false) :=
  required_fields_gating.2 ⟨"{title} _ {artist}", "{title} _ {artist}"⟩ "src/song.mp3"
    ⟨none, some "Album", some "Title", some "3"⟩ (by decide)
    ⟨"artist", by decide, by decide⟩

/-- C10: a required field whose value is the empty string (present but
empty) is classified as missing, exactly as an absent field: the outcome is
the missing-fields failure and the field is in the reported list. -/
theorem empty_string_field_missing (cfg : Config) (filepath : String) (md : TagRecord)
    (f0 : String)
    (hext : SUPPORTED_EXTENSIONS.contains (strLower (pathSuffix filepath)) = true)
    (hf0 : f0 ∈ get_required_fields cfg)
    (hempty : md.get f0 = some "") :
    ∃ l, process_file cfg filepath (some md) =
        { original_path := filepath, success := false,
          reason := some (.missingMetadata l) } ∧ f0 ∈ l := by
  have hfalse : truthyOpt (md.get f0) = false := by
    rw [hempty]
    simp [truthyOpt]
  have hne : (get_required_fields cfg).filter (fun f => !truthyOpt (md.get f)) ≠ [] := by
    intro hempty'
    have : f0 ∈ (get_required_fields cfg).filter (fun f => !truthyOpt (md.get f)) :=
      List.mem_filter.mpr ⟨hf0, by simp [hfalse]⟩
    simp [hempty'] at this
  exact ⟨_, process_file_missing_eq cfg filepath md hext hne,
    List.mem_filter.mpr ⟨hf0, by simp [hfalse]⟩⟩

theorem empty_string_field_missing_witness :
    ∃ l, process_file ⟨"{title} _ {artist}", "{title} _ {artist}"⟩ "src/song.mp3"
        (some ⟨some "", some "Album", some "Title", some "3"⟩) =
        { original_path := "src/song.mp3", success := false,
          reason := some (.missingMetadata l) } ∧ "artist" ∈ l :=
  empty_string_field_missing ⟨"{title} _ {artist}", "{title} _ {artist}"⟩ "src/song.mp3"
    ⟨some "", some "Album", some "Title", some "3"⟩ "artist"
    (by decide) (by decide) (by decide)


/-! ## Generator lemmas -/

theorem empty_eq_nil_asString : ("" : String) = List.asString [] := rfl

theorem natToString_ne_empty (n : Nat) : natToString n ≠ "" := by
  unfold natToString natDigitsFuel
  by_cases h : n < 10
  · simp only [if_pos h]
    intro hc
    rw [empty_eq_nil_asString] at hc
    simpa using List.asString_inj.mp hc
  · simp only [if_neg h]
    intro hc
    rw [empty_eq_nil_asString] at hc
    simpa using List.asString_inj.mp hc

theorem formatInt02_ne_empty (n : Int) : formatInt02 n ≠ "" := by
  have h0 : ("0" : String).length = 1 := rfl
  have h1 : ("-" : String).length = 1 := rfl
  have h2 : ("" : String).length = 0 := rfl
  unfold formatInt02 intToString
  by_cases hlt : (if n < 0 then "-" ++ natToString n.natAbs else natToString n.natAbs).length < 2
  · simp only [if_pos hlt]
    intro hc
    have := congrArg String.length hc
    rw [String.length_append, h2] at this
    omega
  · simp only [if_neg hlt]
    by_cases hn : n < 0
    · simp only [if_pos hn]
      intro hc
      have := congrArg String.length hc
      rw [String.length_append, h2] at this
      omega
    · simp only [if_neg hn]
      exact natToString_ne_empty n.natAbs

theorem truthyOpt_some (s : String) : truthyOpt (some s) = (s != "") := rfl

theorem truthyOpt_none : truthyOpt none = false := rfl

theorem truthy_paddedTrack (md : TagRecord) (h : truthyOpt md.track_number = true) :
    (paddedTrack md != "") = true := by
  unfold paddedTrack
  cases hp : parseInt? (md.track_number.getD "") with
  | some n => simpa using formatInt02_ne_empty n
  | none =>
    cases ht : md.track_number with
    | none => rw [ht] at h; simp [truthyOpt] at h
    | some s => rw [ht] at h; simpa [truthyOpt] using h

/-- C5: `generate_new_filename` renders the primary template iff a (padded)
track value exists and the primary template contains the track placeholder;
otherwise it renders the no-track template.  In particular, for tags with no
track number the result is the no-track template rendered with an empty track
value, independent of the primary template. -/
theorem template_selection :
    (∀ (cfg : Config) (md : TagRecord) (ext : String),
      truthyOpt md.track_number = true → strContains cfg.fmt "{track}" = true →
      generate_new_filename cfg md ext =
        formatTemplate cfg.fmt (fieldVals md (paddedTrack md)) ++ ext) ∧
    (∀ (cfg : Config) (md : TagRecord) (ext : String),
      truthyOpt md.track_number = true → strContains cfg.fmt "{track}" = false →
      generate_new_filename cfg md ext =
        formatTemplate cfg.fmtNoTrack (fieldVals md (paddedTrack md)) ++ ext) ∧
    (∀ (fmt1 fmtNoTrack : String) (md : TagRecord) (ext : String),
      truthyOpt md.track_number = false →
      generate_new_filename ⟨fmt1, fmtNoTrack⟩ md ext =
        formatTemplate fmtNoTrack (fieldVals md "") ++ ext) := by
  refine ⟨?_, ?_, ?_⟩
  · intro cfg md ext htr hpl
    unfold generate_new_filename
    simp only [htr, if_true, truthyOpt_some, truthy_paddedTrack md htr, hpl, Bool.and_self,
      Option.getD_some]
  · intro cfg md ext htr hpl
    unfold generate_new_filename
    simp only [htr, if_true, truthyOpt_some, truthy_paddedTrack md htr, hpl, Bool.and_false,
      Bool.false_eq_true, if_false, Option.getD_some]
  · intro fmt1 fmtNoTrack md ext htr
    unfold generate_new_filename
    simp only [htr, Bool.false_eq_true, if_false, truthyOpt_none, Bool.false_and,
      Option.getD_none]

theorem template_selection_witness :
    (truthyOpt (some "3") = true ∧
      strContains "{track} {title}" "{track}" = true ∧
      generate_new_filename ⟨"{track} {title}", "{title}"⟩
          ⟨some "A", none, some "T", some "3"⟩ ".mp3" =
        formatTemplate "{track} {title}"
          (fieldVals ⟨some "A", none, some "T", some "3"⟩
            (paddedTrack ⟨some "A", none, some "T", some "3"⟩)) ++ ".mp3") ∧
    (truthyOpt ((⟨some "A", none, some "T", none⟩ : TagRecord).track_number) = false ∧
      generate_new_filename ⟨"{track} {title}", "{title}"⟩
          ⟨some "A", none, some "T", none⟩ ".mp3" =
        formatTemplate "{title}" (fieldVals ⟨some "A", none, some "T", none⟩ "") ++ ".mp3") :=
  ⟨⟨by decide, by decide,
    template_selection.1 ⟨"{track} {title}", "{title}"⟩
      ⟨some "A", none, some "T", some "3"⟩ ".mp3" (by decide) (by decide)⟩,
   ⟨by decide,
    template_selection.2.2 "{track} {title}" "{title}"
      ⟨some "A", none, some "T", none⟩ ".mp3" (by decide)⟩⟩


/-! ## Sanitizer stage lemmas -/

/-- The characters occurring in the source patterns of the replacement
table. -/
def replacementSources : List Char := REPLACEMENTS.flatMap (fun r => r.1.toList)

/-- The nine single-character source patterns of the table (every rule except
the accidental triple-quote one). -/
def singleCharSources : List Char := [':', '|', '/', '?', '"', '<', '>', '*', '\\']

/-- Does the string contain any character of the class? -/
def hasAnyChar (bad : List Char) (s : String) : Bool :=
  s.toList.any (fun c => bad.contains c)

theorem mem_replaceFuel {old new : List Char} {c : Char} :
    ∀ (fuel : Nat) (l : List Char), c ∈ replaceFuel old new fuel l → c ∈ new ∨ c ∈ l := by
  intro fuel
  induction fuel with
  | zero => intro l h; exact Or.inr h
  | succ fuel ih =>
    intro l h
    cases l with
    | nil => exact absurd h (by simp [replaceFuel])
    | cons a rest =>
      unfold replaceFuel at h
      by_cases hp : old.isPrefixOf (a :: rest)
      · rw [if_pos hp] at h
        rcases List.mem_append.mp h with h1 | h1
        · exact Or.inl h1
        · rcases ih _ h1 with h2 | h2
          · exact Or.inl h2
          · exact Or.inr ((List.drop_subset _ _) h2)
      · rw [if_neg hp] at h
        rcases List.mem_cons.mp h with rfl | h1
        · exact Or.inr (List.mem_cons_self c rest)
        · rcases ih _ h1 with h2 | h2
          · exact Or.inl h2
          · exact Or.inr (List.mem_cons_of_mem a h2)

theorem replaceFuel_id {old new : List Char} {c0 : Char} (hc0 : c0 ∈ old) :
    ∀ (fuel : Nat) (l : List Char), c0 ∉ l → replaceFuel old new fuel l = l := by
  intro fuel
  induction fuel with
  | zero => intro l _; rfl
  | succ fuel ih =>
    intro l hl
    cases l with
    | nil => rfl
    | cons a rest =>
      unfold replaceFuel
      have hp : ¬ old.isPrefixOf (a :: rest) := fun hp =>
        hl ((List.isPrefixOf_iff_prefix.mp hp).subset hc0)
      rw [if_neg hp, ih rest (fun hm => hl (List.mem_cons_of_mem a hm))]

theorem replaceList_id {old new l : List Char} {c0 : Char}
    (hc0 : c0 ∈ old) (hl : c0 ∉ l) : replaceList old new l = l :=
  replaceFuel_id hc0 l.length l hl

theorem not_mem_replaceFuel_single {c : Char} {new : List Char} (hnew : c ∉ new) :
    ∀ (fuel : Nat) (l : List Char), l.length ≤ fuel → c ∉ replaceFuel [c] new fuel l := by
  intro fuel
  induction fuel with
  | zero =>
    intro l hlen
    obtain rfl : l = [] := List.length_eq_zero.mp (Nat.le_zero.mp hlen)
    simp [replaceFuel]
  | succ fuel ih =>
    intro l hlen
    cases l with
    | nil => simp [replaceFuel]
    | cons a rest =>
      simp only [List.length_cons, Nat.succ_le_succ_iff] at hlen
      unfold replaceFuel
      by_cases hp : ([c] : List Char).isPrefixOf (a :: rest)
      · rw [if_pos hp]
        intro hmem
        rcases List.mem_append.mp hmem with h1 | h1
        · exact hnew h1
        · exact ih rest hlen h1
      · rw [if_neg hp]
        intro hmem
        rcases List.mem_cons.mp hmem with rfl | h1
        · exact hp (List.isPrefixOf_iff_prefix.mpr ⟨rest, rfl⟩)
        · exact ih rest hlen h1

theorem not_mem_replaceList_single {c : Char} {new l : List Char} (hnew : c ∉ new) :
    c ∉ replaceList [c] new l :=
  not_mem_replaceFuel_single hnew l.length l le_rfl

theorem foldl_replace_id :
    ∀ (rules : List (String × String)) (l : List Char),
      (∀ r ∈ rules, ∃ c ∈ r.1.toList, c ∉ l) →
      rules.foldl (fun acc r => replaceList r.1.toList r.2.toList acc) l = l := by
  intro rules
  induction rules with
  | nil => intro l _; rfl
  | cons r rs ih =>
    intro l h
    obtain ⟨c0, hc0, hcl⟩ := h r (List.mem_cons_self r rs)
    rw [List.foldl_cons, replaceList_id hc0 hcl]
    exact ih l (fun r' hr' => h r' (List.mem_cons_of_mem r hr'))

theorem rules_nonempty : ∀ r ∈ REPLACEMENTS, r.1.toList ≠ [] := by decide

theorem applyReplacements_id_of_rules {l : List Char}
    (h : ∀ r ∈ REPLACEMENTS, ∃ c ∈ r.1.toList, c ∉ l) :
    applyReplacements l = l :=
  foldl_replace_id REPLACEMENTS l h

theorem applyReplacements_id {l : List Char}
    (h : ∀ c ∈ l, c ∉ replacementSources) :
    applyReplacements l = l := by
  apply applyReplacements_id_of_rules
  intro r hr
  cases hc : r.1.toList with
  | nil => exact absurd hc (rules_nonempty r hr)
  | cons c cs =>
    refine ⟨c, hc ▸ List.mem_cons_self c cs, fun hcl => h c hcl ?_⟩
    exact List.mem_flatMap.mpr ⟨r, hr, hc ▸ List.mem_cons_self c cs⟩

theorem removeInvalid_id {l : List Char}
    (h : ∀ c ∈ l, c ∉ INVALID_CHARS) :
    removeInvalid l = l := by
  unfold removeInvalid
  rw [List.filter_eq_self]
  intro c hc
  simpa using h c hc

theorem hasAnyChar_false_iff (bad : List Char) (s : String) :
    hasAnyChar bad s = false ↔ ∀ c ∈ s.toList, c ∉ bad := by
  unfold hasAnyChar
  simp

/-- C2 (amended): on a string free of replacement-source characters and of
platform-invalid characters, `sanitize` is the composition of the
whitespace/dash normalisation and the edge trimming, so if the string is also
fixed by those cleanup stages it is returned unchanged with `changed = false`;
and on every input the changed flag is true iff the output differs from the
input. -/
theorem sanitize_noop :
    (∀ s : String,
      hasAnyChar replacementSources s = false →
      hasAnyChar INVALID_CHARS s = false →
      collapseWs s.toList = s.toList →
      collapseDashes s.toList = s.toList →
      normDashPair s.toList = s.toList →
      stripEnds s.toList = s.toList →
      sanitize s = (s, false)) ∧
    (∀ s : String, (sanitize s).2 = true ↔ (sanitize s).1 ≠ s) := by
  constructor
  · intro s hsrc hinv hcw hcd hnd hstrip
    have hsrc' := (hasAnyChar_false_iff _ s).mp hsrc
    have hinv' := (hasAnyChar_false_iff _ s).mp hinv
    have htext : sanitizeText s = s := by
      unfold sanitizeText
      rw [applyReplacements_id hsrc', removeInvalid_id hinv', hcw, hcd, hnd, hstrip]
      rfl
    unfold sanitize
    rw [htext]
    simp
  · intro s
    unfold sanitize
    simp

theorem sanitize_noop_witness :
    hasAnyChar replacementSources "mb" = false ∧
    hasAnyChar INVALID_CHARS "mb" = false ∧
    sanitize "mb" = ("mb", false) :=
  ⟨by decide, by decide,
    sanitize_noop.1 "mb" (by decide) (by decide) (by decide) (by decide) (by decide)
      (by decide)⟩

/-- C2 counterexample: `"b--b"` contains no character of any replacement
source pattern and no invalid character, yet `sanitize` collapses its dash
run and reports `changed = true`. -/
theorem sanitize_noop_counterexample :
    hasAnyChar replacementSources "b--b" = false ∧
    hasAnyChar INVALID_CHARS "b--b" = false ∧
    sanitize "b--b" ≠ ("b--b", false) := by decide


/-! ## Character tracking through the sanitizer stages -/

theorem toList_asString (l : List Char) : (List.asString l).toList = l := rfl

theorem dropWhile_head_false {p : Char → Bool} {l : List Char} {c : Char} {t : List Char}
    (h : l.dropWhile p = c :: t) : p c = false := by
  have h2 : (l.dropWhile p).head (by simp [h]) = c := by simp [h]
  have h3 := List.head_dropWhile_not p l (by simp [h])
  rw [h2] at h3
  simpa using h3

theorem foldl_eliminates (c : Char) :
    ∀ (rules : List (String × String)) (l : List Char),
      (∀ r ∈ rules, c ∉ r.2.toList) →
      (c ∉ l ∨ ∃ r ∈ rules, r.1.toList = [c]) →
      c ∉ rules.foldl (fun acc r => replaceList r.1.toList r.2.toList acc) l := by
  intro rules
  induction rules with
  | nil =>
    intro l _ h
    rcases h with h | ⟨r, hr, _⟩
    · exact h
    · exact absurd hr (by simp)
  | cons r rs ih =>
    intro l hnews hcase
    rw [List.foldl_cons]
    have hnews' : ∀ r' ∈ rs, c ∉ r'.2.toList :=
      fun r' hr' => hnews r' (List.mem_cons_of_mem r hr')
    rcases hcase with hl | ⟨r', hr', hold⟩
    · apply ih _ hnews'
      left
      intro hmem
      rcases mem_replaceFuel _ _ hmem with h1 | h1
      · exact hnews r (List.mem_cons_self r rs) h1
      · exact hl h1
    · rcases List.mem_cons.mp hr' with rfl | hr''
      · apply ih _ hnews'
        left
        rw [show replaceList r'.1.toList r'.2.toList l = replaceList [c] r'.2.toList l from by
          rw [hold]]
        exact not_mem_replaceList_single (hnews r' hr')
      · exact ih _ hnews' (Or.inr ⟨r', hr'', hold⟩)

theorem applyReplacements_no_single {c : Char} (hc : c ∈ singleCharSources)
    (l : List Char) : c ∉ applyReplacements l := by
  apply foldl_eliminates
  · have hd : ∀ c' ∈ singleCharSources, ∀ r ∈ REPLACEMENTS, c' ∉ r.2.toList := by decide
    exact hd c hc
  · right
    have hd : ∀ c' ∈ singleCharSources, ∃ r ∈ REPLACEMENTS, r.1.toList = [c'] := by decide
    exact hd c hc

theorem foldl_replace_preserve (bad : List Char) :
    ∀ (rules : List (String × String)) (l : List Char),
      (∀ r ∈ rules, (∀ c ∈ r.2.toList, c ∉ bad) ∨ (∃ c ∈ r.1.toList, c ∈ bad)) →
      (∀ c ∈ l, c ∉ bad) →
      ∀ c ∈ rules.foldl (fun acc r => replaceList r.1.toList r.2.toList acc) l, c ∉ bad := by
  intro rules
  induction rules with
  | nil => intro l _ hl c hc; exact hl c hc
  | cons r rs ih =>
    intro l hrules hl
    rw [List.foldl_cons]
    apply ih _ (fun r' hr' => hrules r' (List.mem_cons_of_mem r hr'))
    rcases hrules r (List.mem_cons_self r rs) with hnew | ⟨c', hc'1, hc'2⟩
    · intro c hc
      rcases mem_replaceFuel _ _ hc with h1 | h1
      · exact hnew c h1
      · exact hl c h1
    · rw [replaceList_id hc'1 (fun hm => hl c' hm hc'2)]
      exact hl

/-- The characters whose presence can feed the dash-pattern normalisation: a
dash itself, or a character replaced by a dash. -/
def dashLike : List Char := ['-', ':', '|', '/', '\\']

theorem applyReplacements_dash_free {l : List Char}
    (h : ∀ c ∈ l, c ∉ dashLike) : ∀ c ∈ applyReplacements l, c ∉ dashLike := by
  apply foldl_replace_preserve dashLike REPLACEMENTS l ?_ h
  decide

theorem invalid_sub_single : ∀ c ∈ INVALID_CHARS, c ∈ singleCharSources := by decide

theorem rules_have_single_source :
    ∀ r ∈ REPLACEMENTS, ∃ c ∈ r.1.toList, c ∈ singleCharSources := by decide

/-! ## The whitespace normal form -/

/-- All whitespace is a plain space and no two spaces are adjacent: the form
that the `\s+` collapse produces and fixes. -/
def wsOk (l : List Char) : Prop :=
  (∀ c ∈ l, isSp c = true → c = ' ') ∧ l.Chain' (fun a b => ¬(a = ' ' ∧ b = ' '))

theorem collapseWs_cons_not_sp {c : Char} (rest : List Char) (h : isSp c = false) :
    collapseWs (c :: rest) = c :: collapseWs rest := by
  rw [collapseWs_cons, if_neg (by simp [h])]

theorem collapseWs_subset_aux :
    ∀ (n : Nat) (l : List Char), l.length ≤ n → ∀ c ∈ collapseWs l, c = ' ' ∨ c ∈ l := by
  intro n
  induction n with
  | zero =>
    intro l h c hc
    obtain rfl : l = [] := List.length_eq_zero.mp (Nat.le_zero.mp h)
    rw [collapseWs_nil] at hc
    exact absurd hc (by simp)
  | succ n ih =>
    intro l h c hc
    cases l with
    | nil =>
      rw [collapseWs_nil] at hc
      exact absurd hc (by simp)
    | cons a rest =>
      simp only [List.length_cons, Nat.succ_le_succ_iff] at h
      rw [collapseWs_cons] at hc
      by_cases ha : isSp a
      · rw [if_pos ha] at hc
        rcases List.mem_cons.mp hc with rfl | hc'
        · exact Or.inl rfl
        · have hlen : (rest.dropWhile isSp).length ≤ n :=
            le_trans (length_dropWhile_le isSp rest) h
          rcases ih (rest.dropWhile isSp) hlen c hc' with h' | h'
          · exact Or.inl h'
          · exact Or.inr (List.mem_cons_of_mem a ((List.dropWhile_sublist isSp).subset h'))
      · rw [if_neg ha] at hc
        rcases List.mem_cons.mp hc with rfl | hc'
        · exact Or.inr (List.mem_cons_self c rest)
        · rcases ih rest h c hc' with h' | h'
          · exact Or.inl h'
          · exact Or.inr (List.mem_cons_of_mem a h')

theorem collapseWs_subset (l : List Char) : ∀ c ∈ collapseWs l, c = ' ' ∨ c ∈ l :=
  collapseWs_subset_aux l.length l le_rfl

theorem wsOk_nil : wsOk [] := ⟨by simp, by simp⟩

theorem wsOk_collapseWs_aux :
    ∀ (n : Nat) (l : List Char), l.length ≤ n → wsOk (collapseWs l) := by
  intro n
  induction n with
  | zero =>
    intro l h
    obtain rfl : l = [] := List.length_eq_zero.mp (Nat.le_zero.mp h)
    rw [collapseWs_nil]
    exact wsOk_nil
  | succ n ih =>
    intro l h
    cases l with
    | nil => rw [collapseWs_nil]; exact wsOk_nil
    | cons a rest =>
      simp only [List.length_cons, Nat.succ_le_succ_iff] at h
      rw [collapseWs_cons]
      by_cases ha : isSp a
      · rw [if_pos ha]
        have hlen : (rest.dropWhile isSp).length ≤ n :=
          le_trans (length_dropWhile_le isSp rest) h
        have hrec := ih (rest.dropWhile isSp) hlen
        constructor
        · intro c hc hsp
          rcases List.mem_cons.mp hc with rfl | hc'
          · rfl
          · exact hrec.1 c hc' hsp
        · rw [List.chain'_cons']
          refine ⟨?_, hrec.2⟩
          intro y hy hcon
          cases hd : rest.dropWhile isSp with
          | nil => rw [hd, collapseWs_nil] at hy; simp at hy
          | cons d t =>
            have hdns : isSp d = false := dropWhile_head_false hd
            rw [hd, collapseWs_cons_not_sp t hdns] at hy
            simp only [List.head?_cons, Option.mem_some_iff] at hy
            subst hy
            rw [hcon.2] at hdns
            exact absurd hdns (by decide)
      · rw [if_neg ha]
        have hrec := ih rest h
        constructor
        · intro c hc hsp
          rcases List.mem_cons.mp hc with rfl | hc'
          · exact absurd hsp (by simp [ha])
          · exact hrec.1 c hc' hsp
        · rw [List.chain'_cons']
          refine ⟨?_, hrec.2⟩
          intro y _ hcon
          have : isSp a = true := by rw [hcon.1]; decide
          exact ha this

theorem wsOk_collapseWs (l : List Char) : wsOk (collapseWs l) :=
  wsOk_collapseWs_aux l.length l le_rfl

theorem collapseWs_of_wsOk : ∀ l : List Char, wsOk l → collapseWs l = l := by
  intro l
  induction l with
  | nil => intro _; exact collapseWs_nil
  | cons a rest ih =>
    intro hok
    obtain ⟨hall, hchain⟩ := hok
    have htail : wsOk rest :=
      ⟨fun c hc => hall c (List.mem_cons_of_mem a hc), hchain.tail⟩
    by_cases ha : isSp a
    · have ha' : a = ' ' := hall a (List.mem_cons_self a rest) (by simpa using ha)
      rw [collapseWs_cons, if_pos ha]
      have hdrop : rest.dropWhile isSp = rest := by
        cases rest with
        | nil => rfl
        | cons b t =>
          have hbns : isSp b = false := by
            by_contra hb
            have hb' : b = ' ' :=
              hall b (List.mem_cons_of_mem a (List.mem_cons_self b t)) (by simpa using hb)
            exact (List.chain'_cons.mp hchain).1 ⟨ha', hb'⟩
          rw [List.dropWhile_cons, if_neg (by simp [hbns])]
      rw [hdrop, ih htail, ha']
    · rw [collapseWs_cons, if_neg ha, ih htail]

theorem wsOk_within {l l' : List Char} (h : wsOk l) (hi : l' <:+: l) : wsOk l' :=
  ⟨fun c hc => h.1 c (hi.subset hc), List.Chain'.infix h.2 hi⟩

/-! ## Trimming -/

theorem stripEnds_within (l : List Char) : stripEnds l <:+: l := by
  have h1 : l.dropWhile isStripChar <:+ l := List.dropWhile_suffix _
  have h2' : (l.dropWhile isStripChar).reverse.dropWhile isStripChar <:+
      (l.dropWhile isStripChar).reverse := List.dropWhile_suffix _
  have h2 : ((l.dropWhile isStripChar).reverse.dropWhile isStripChar).reverse <+:
      l.dropWhile isStripChar := by
    have := List.reverse_prefix.mpr h2'
    simpa using this
  exact List.IsInfix.trans ( List.IsPrefix.isInfix h2) ( List.IsSuffix.isInfix h1)

theorem dropWhile_dropWhile (p : Char → Bool) (l : List Char) :
    (l.dropWhile p).dropWhile p = l.dropWhile p := by
  cases hd : l.dropWhile p with
  | nil => rfl
  | cons c t => rw [List.dropWhile_cons, if_neg (by simp [dropWhile_head_false hd])]

theorem stripEnds_idem (l : List Char) : stripEnds (stripEnds l) = stripEnds l := by
  have hds : (stripEnds l).dropWhile isStripChar = stripEnds l := by
    cases hsc : stripEnds l with
    | nil => rfl
    | cons c t =>
      have hpre : stripEnds l <+: l.dropWhile isStripChar := by
        have h2' : (l.dropWhile isStripChar).reverse.dropWhile isStripChar <:+
            (l.dropWhile isStripChar).reverse := List.dropWhile_suffix _
        have := List.reverse_prefix.mpr h2'
        simpa [stripEnds] using this
      obtain ⟨u, hu⟩ := hpre
      rw [hsc] at hu
      have hM : l.dropWhile isStripChar = c :: (t ++ u) := by rw [← hu]; simp
      have hcns : isStripChar c = false := dropWhile_head_false hM
      rw [List.dropWhile_cons, if_neg (by simp [hcns])]
  show (((stripEnds l).dropWhile isStripChar).reverse.dropWhile isStripChar).reverse = stripEnds l
  rw [hds]
  have : (stripEnds l).reverse = (l.dropWhile isStripChar).reverse.dropWhile isStripChar := by
    simp [stripEnds]
  rw [this, dropWhile_dropWhile]
  simp [stripEnds]

/-! ## Dash-free identity of the dash stages -/

theorem collapseDashes_of_no_dash : ∀ l : List Char, '-' ∉ l → collapseDashes l = l := by
  intro l
  induction l with
  | nil => intro _; exact collapseDashes_nil
  | cons c rest ih =>
    intro h
    have hc : ¬(c = '-') := fun he => h (he ▸ List.mem_cons_self c rest)
    rw [collapseDashes_cons, if_neg hc, ih (fun hm => h (List.mem_cons_of_mem c hm))]

theorem dashPairMatch_none_of_no_dash {l : List Char} (h : '-' ∉ l) :
    dashPairMatch l = none := by
  unfold dashPairMatch
  cases hd : l.dropWhile isSp with
  | nil => rfl
  | cons c t =>
    have hcl : c ∈ l := (List.dropWhile_sublist isSp).subset (hd ▸ List.mem_cons_self c t)
    have hcn : c ≠ '-' := fun he => h (he ▸ hcl)
    split
    · rename_i t' heq
      exact absurd (List.cons.injEq .. ▸ heq).1 hcn
    · rfl

theorem normDashPair_of_no_dash_aux :
    ∀ (n : Nat) (l : List Char), l.length ≤ n → '-' ∉ l → normDashPair l = l := by
  intro n
  induction n with
  | zero =>
    intro l h _
    obtain rfl : l = [] := List.length_eq_zero.mp (Nat.le_zero.mp h)
    exact normDashPair_nil
  | succ n ih =>
    intro l h hno
    cases l with
    | nil => exact normDashPair_nil
    | cons a rest =>
      simp only [List.length_cons, Nat.succ_le_succ_iff] at h
      rw [normDashPair_cons_none (dashPairMatch_none_of_no_dash hno)]
      rw [ih rest h (fun hm => hno (List.mem_cons_of_mem a hm))]

theorem normDashPair_of_no_dash {l : List Char} (h : '-' ∉ l) : normDashPair l = l :=
  normDashPair_of_no_dash_aux l.length l le_rfl h


/-! ## C1: idempotence of the sanitizer -/

/-- C1 counterexample: `sanitize` is not idempotent.  On `"a - - - b"` the
dash-pattern substitution rewrites the first `" - - "` and resumes after it,
leaving `"a - - b"`; a second application rewrites the remaining pattern to
`"a - b"`. -/
theorem sanitize_idempotent_counterexample :
    (sanitize ((sanitize "a - - - b").1)).1 ≠ (sanitize "a - - - b").1 := by decide

/-- C1 (amended): `sanitize` is idempotent on every string containing no dash
and no dash-producing character (`-`, `:`, `|`, `/`, `\\`) — the dash-pattern
normalisation, whose leftover matches are the source of non-idempotence, then
never fires; the second application even reports `changed = false`.  On
general strings a second application can differ (see the counterexample). -/
theorem sanitize_idempotent_on_dash_free (s : String)
    (hs : hasAnyChar dashLike s = false) :
    sanitize ((sanitize s).1) = ((sanitize s).1, false) := by
  have hfree : ∀ c ∈ s.toList, c ∉ dashLike := (hasAnyChar_false_iff _ s).mp hs
  have hz1src : ∀ c ∈ singleCharSources, c ∉ applyReplacements s.toList :=
    fun c hc => applyReplacements_no_single hc s.toList
  have hz1dash : ∀ c ∈ applyReplacements s.toList, c ∉ dashLike :=
    applyReplacements_dash_free hfree
  have hz1inv : removeInvalid (applyReplacements s.toList) = applyReplacements s.toList :=
    removeInvalid_id (fun c hc hinv => hz1src c (invalid_sub_single c hinv) hc)
  have hz3sub := collapseWs_subset (applyReplacements s.toList)
  have hz3src : ∀ c ∈ singleCharSources, c ∉ collapseWs (applyReplacements s.toList) := by
    intro c hsrc hc
    rcases hz3sub c hc with rfl | h'
    · exact absurd hsrc (by decide)
    · exact hz1src c hsrc h'
  have hz3dash : ∀ c ∈ collapseWs (applyReplacements s.toList), c ∉ dashLike := by
    intro c hc hmem
    rcases hz3sub c hc with rfl | h'
    · exact absurd hmem (by decide)
    · exact hz1dash c h' hmem
  have hz3no : '-' ∉ collapseWs (applyReplacements s.toList) :=
    fun hm => hz3dash '-' hm (by decide)
  have hcd : collapseDashes (collapseWs (applyReplacements s.toList)) =
      collapseWs (applyReplacements s.toList) := collapseDashes_of_no_dash _ hz3no
  have hnd : normDashPair (collapseWs (applyReplacements s.toList)) =
      collapseWs (applyReplacements s.toList) := normDashPair_of_no_dash hz3no
  have hwsOk3 : wsOk (collapseWs (applyReplacements s.toList)) := wsOk_collapseWs _
  have hyinf : stripEnds (collapseWs (applyReplacements s.toList)) <:+:
      collapseWs (applyReplacements s.toList) := stripEnds_within _
  have hywsOk : wsOk (stripEnds (collapseWs (applyReplacements s.toList))) :=
    wsOk_within hwsOk3 hyinf
  have hysrc : ∀ c ∈ singleCharSources,
      c ∉ stripEnds (collapseWs (applyReplacements s.toList)) :=
    fun c hsrc hc => hz3src c hsrc (hyinf.subset hc)
  have hyno : '-' ∉ stripEnds (collapseWs (applyReplacements s.toList)) :=
    fun hm => hz3no (hyinf.subset hm)
  have hfirst : (sanitize s).1 =
      (stripEnds (collapseWs (applyReplacements s.toList))).asString := by
    show sanitizeText s = _
    unfold sanitizeText
    rw [hz1inv, hcd, hnd]
  rw [hfirst]
  have htolist : ((stripEnds (collapseWs (applyReplacements s.toList))).asString).toList =
      stripEnds (collapseWs (applyReplacements s.toList)) := toList_asString _
  have h2text : sanitizeText ((stripEnds (collapseWs (applyReplacements s.toList))).asString) =
      (stripEnds (collapseWs (applyReplacements s.toList))).asString := by
    unfold sanitizeText
    rw [htolist]
    rw [applyReplacements_id_of_rules (fun r hr => by
          obtain ⟨c, hc1, hc2⟩ := rules_have_single_source r hr
          exact ⟨c, hc1, hysrc c hc2⟩),
        removeInvalid_id (fun c hc hinv => hysrc c (invalid_sub_single c hinv) hc),
        collapseWs_of_wsOk _ hywsOk,
        collapseDashes_of_no_dash _ hyno,
        normDashPair_of_no_dash hyno,
        stripEnds_idem]
  unfold sanitize
  rw [h2text]
  exact congrArg (fun b => ((stripEnds (collapseWs (applyReplacements s.toList))).asString, b))
    (bne_self_eq_false _)

theorem sanitize_idempotent_on_dash_free_witness :
    hasAnyChar dashLike "ab?  c" = false ∧
    sanitize ((sanitize "ab?  c").1) = ((sanitize "ab?  c").1, false) :=
  ⟨by decide, sanitize_idempotent_on_dash_free "ab?  c" (by decide)⟩


/-! ## Scanner lemmas -/

theorem toList_strLower (s : String) : (strLower s).toList = s.toList.map Char.toLower :=
  toList_asString _

theorem pathSuffix_suffix (p : String) :
    (pathSuffix p).toList <:+ (lastComponent p).toList := by
  unfold pathSuffix
  cases hf : rfindDotAux (lastComponent p).toList 0 none with
  | none => exact List.nil_suffix
  | some i =>
    dsimp only
    by_cases hc : 0 < i ∧ i < (lastComponent p).toList.length - 1
    · rw [if_pos hc, toList_asString]
      exact List.drop_suffix i _
    · rw [if_neg hc]
      exact List.nil_suffix

theorem strEndsWith_lower_suffix (p : String) :
    strEndsWith (strLower (lastComponent p)) (strLower (pathSuffix p)) = true := by
  unfold strEndsWith
  rw [toList_strLower, toList_strLower]
  exact List.isSuffixOf_iff_suffix.mpr (List.IsSuffix.map _ (pathSuffix_suffix p))

theorem strLower_supported : ∀ ext ∈ SUPPORTED_EXTENSIONS, strLower ext = ext := by decide

theorem strLower_strUpper_supported :
    ∀ ext ∈ SUPPORTED_EXTENSIONS, strLower (strUpper ext) = strLower ext := by decide

theorem globMatch_upper_eq (ext : String) (h : ext ∈ SUPPORTED_EXTENSIONS) (p : String) :
    globMatch (strUpper ext) p = globMatch ext p := by
  unfold globMatch
  rw [strLower_strUpper_supported ext h]

theorem mem_scan_iff (tree : List String) (p : String) :
    p ∈ scan_directory tree ↔
      (p ∈ tree ∧ ∃ ext ∈ SUPPORTED_EXTENSIONS, globMatch ext p = true) := by
  unfold scan_directory
  rw [List.mem_insertionSort, List.mem_dedup, List.mem_flatMap]
  constructor
  · rintro ⟨ext, hext, hp⟩
    rcases List.mem_append.mp hp with h | h
    · obtain ⟨hm, hg⟩ := List.mem_filter.mp h
      exact ⟨hm, ext, hext, hg⟩
    · obtain ⟨hm, hg⟩ := List.mem_filter.mp h
      refine ⟨hm, ext, hext, ?_⟩
      rwa [globMatch_upper_eq ext hext] at hg
  · rintro ⟨hm, ext, hext, hg⟩
    exact ⟨ext, hext, List.mem_append.mpr (Or.inl (List.mem_filter.mpr ⟨hm, hg⟩))⟩

/-- C7 (amended): the scanner enumerates exactly the files under the root
whose name ends, compared case-insensitively, with a supported extension
(pathlib glob matching is case-insensitive on the configured Windows
platform, so any case mixture such as `.Mp3` is matched).  This is strictly
more than the files whose extension (`Path.suffix`) is in the supported set:
every file whose lowercased suffix is supported is enumerated, but so is a
dot-file named exactly like an extension (such as `.mp3`), whose pathlib
suffix is empty.  The enumeration is deduplicated (the doubled
lowercase/uppercase globbing introduces no duplicate paths in the output). -/
theorem scanner_enumeration :
    (∀ (tree : List String) (p : String),
      p ∈ scan_directory tree ↔
        (p ∈ tree ∧ ∃ ext ∈ SUPPORTED_EXTENSIONS,
          strEndsWith (strLower (lastComponent p)) ext = true)) ∧
    (∀ (tree : List String) (p : String),
      p ∈ tree → strLower (pathSuffix p) ∈ SUPPORTED_EXTENSIONS →
      p ∈ scan_directory tree) ∧
    (∀ tree : List String, (scan_directory tree).Nodup) := by
  have hchar : ∀ (tree : List String) (p : String),
      p ∈ scan_directory tree ↔
        (p ∈ tree ∧ ∃ ext ∈ SUPPORTED_EXTENSIONS,
          strEndsWith (strLower (lastComponent p)) ext = true) := by
    intro tree p
    rw [mem_scan_iff]
    refine and_congr_right (fun _ => exists_congr (fun ext => and_congr_right (fun hext => ?_)))
    unfold globMatch
    rw [strLower_supported ext hext]
  refine ⟨hchar, ?_, ?_⟩
  · intro tree p hm hsuf
    exact (hchar tree p).mpr ⟨hm, strLower (pathSuffix p), hsuf, strEndsWith_lower_suffix p⟩
  · intro tree
    unfold scan_directory
    exact (List.perm_insertionSort _ _).nodup_iff.mpr (List.nodup_dedup _)

theorem scanner_enumeration_witness :
    "r/song.Mp3" ∈ scan_directory ["r/song.Mp3"] ∧
    strLower (pathSuffix "r/song.Mp3") ∈ SUPPORTED_EXTENSIONS :=
  ⟨scanner_enumeration.2.1 ["r/song.Mp3"] "r/song.Mp3" (by decide) (by decide), by decide⟩

/-- C7 counterexample: `rglob("*.mp3")` matches a file named exactly `.mp3`
(the `*` matches the empty string), yet its `Path.suffix` is empty, so the
scanner enumerates a file whose extension is not in the supported set. -/
theorem scanner_enumeration_counterexample :
    "r/.mp3" ∈ scan_directory ["r/.mp3"] ∧
    strLower (pathSuffix "r/.mp3") ∉ SUPPORTED_EXTENSIONS := by decide

/-! ## Scanner ordering -/

theorem lexLt_irrefl : ∀ l : List Char, lexLt l l = false := by
  intro l
  induction l with
  | nil => rfl
  | cons a as ih => simp [lexLt, lt_irrefl, ih]

theorem lexLt_trans :
    ∀ l1 l2 l3 : List Char, lexLt l1 l2 = true → lexLt l2 l3 = true → lexLt l1 l3 = true := by
  intro l1
  induction l1 with
  | nil =>
    intro l2 l3 h12 h23
    cases l2 with
    | nil => simp [lexLt] at h12
    | cons b bs =>
      cases l3 with
      | nil => simp [lexLt] at h23
      | cons c cs => rfl
  | cons a as ih =>
    intro l2 l3 h12 h23
    cases l2 with
    | nil => simp [lexLt] at h12
    | cons b bs =>
      cases l3 with
      | nil => simp [lexLt] at h23
      | cons c cs =>
        by_cases hab : a < b
        · by_cases hbc : b < c
          · simp [lexLt, lt_trans hab hbc]
          · by_cases hcb : c < b
            · simp [lexLt, hbc, hcb] at h23
            · have hbceq : b = c := le_antisymm (not_lt.mp hcb) (not_lt.mp hbc)
              subst hbceq
              simp [lexLt, hab]
        · by_cases hba : b < a
          · simp [lexLt, hab, hba] at h12
          · have habeq : a = b := le_antisymm (not_lt.mp hba) (not_lt.mp hab)
            subst habeq
            by_cases hac : a < c
            · simp [lexLt, hac]
            · by_cases hca : c < a
              · simp [lexLt, hac, hca] at h23
              · have haceq : a = c := le_antisymm (not_lt.mp hca) (not_lt.mp hac)
                subst haceq
                simp only [lexLt, lt_irrefl, if_false] at h12 h23 ⊢
                exact ih _ _ h12 h23

theorem lexLt_eq_of_not_lt :
    ∀ l1 l2 : List Char, lexLt l1 l2 = false → lexLt l2 l1 = false → l1 = l2 := by
  intro l1
  induction l1 with
  | nil =>
    intro l2 h12 _
    cases l2 with
    | nil => rfl
    | cons b bs => simp [lexLt] at h12
  | cons a as ih =>
    intro l2 h12 h21
    cases l2 with
    | nil => simp [lexLt] at h21
    | cons b bs =>
      by_cases hab : a < b
      · simp [lexLt, hab] at h12
      · by_cases hba : b < a
        · simp [lexLt, hba] at h21
        · have habeq : a = b := le_antisymm (not_lt.mp hba) (not_lt.mp hab)
          subst habeq
          have htail : as = bs := by
            apply ih
            · simpa [lexLt, lt_irrefl] using h12
            · simpa [lexLt, lt_irrefl] using h21
          rw [htail]

theorem partsLe_total :
    ∀ l1 l2 : List (List Char), partsLe l1 l2 = true ∨ partsLe l2 l1 = true := by
  intro l1
  induction l1 with
  | nil => intro l2; left; rfl
  | cons a as ih =>
    intro l2
    cases l2 with
    | nil => right; rfl
    | cons b bs =>
      by_cases hab : lexLt a b = true
      · left; simp [partsLe, hab]
      · by_cases hba : lexLt b a = true
        · right; simp [partsLe, hba]
        · rcases ih bs with h | h
          · left; simp [partsLe, hab, hba, h]
          · right; simp [partsLe, hba, hab, h]

theorem partsLe_trans :
    ∀ l1 l2 l3 : List (List Char),
      partsLe l1 l2 = true → partsLe l2 l3 = true → partsLe l1 l3 = true := by
  intro l1
  induction l1 with
  | nil => intro l2 l3 _ _; rfl
  | cons a as ih =>
    intro l2 l3 h12 h23
    cases l2 with
    | nil => simp [partsLe] at h12
    | cons b bs =>
      cases l3 with
      | nil => simp [partsLe] at h23
      | cons c cs =>
        by_cases hab : lexLt a b = true
        · by_cases hbc : lexLt b c = true
          · simp [partsLe, lexLt_trans a b c hab hbc]
          · by_cases hcb : lexLt c b = true
            · simp [partsLe, hbc, hcb] at h23
            · have hbceq : b = c :=
                lexLt_eq_of_not_lt b c (by simpa using hbc) (by simpa using hcb)
              subst hbceq
              simp [partsLe, hab]
        · by_cases hba : lexLt b a = true
          · simp [partsLe, hab, hba] at h12
          · have habeq : a = b :=
              lexLt_eq_of_not_lt a b (by simpa using hab) (by simpa using hba)
            subst habeq
            by_cases hac : lexLt a c = true
            · simp [partsLe, hac]
            · by_cases hca : lexLt c a = true
              · simp [partsLe, hac, hca] at h23
              · have haceq : a = c :=
                  lexLt_eq_of_not_lt a c (by simpa using hac) (by simpa using hca)
                subst haceq
                simp only [partsLe, lexLt_irrefl, Bool.false_eq_true, if_false] at h12 h23 ⊢
                exact ih _ _ h12 h23

instance : IsTotal String normLe := ⟨fun _ _ => partsLe_total _ _⟩

instance : IsTrans String normLe := ⟨fun _ _ _ h1 h2 => partsLe_trans _ _ _ h1 h2⟩

/-- Faithfulness check of the component-wise ordering: pathlib sorts
`r/a/c.mp3` before `r/a b.mp3` (component `"a"` is a strict prefix of
`"a b.mp3"`), although `"r/a b.mp3"` is the smaller flat string. -/
theorem scan_directory_component_order :
    scan_directory ["r/a b.mp3", "r/a/c.mp3"] = ["r/a/c.mp3", "r/a b.mp3"] ∧
    strLt "r/a b.mp3" "r/a/c.mp3" := by decide

/-- C8 (amended): the scanner's final ordering is the total deterministic
sort by pathlib's path order — on the target Windows platform, lexicographic
on the tuple of case-folded path components, not on the raw path string.  The
output is a pure function of the enumerated tree, hence identical across runs
on unchanged input. -/
theorem scanner_sorted (tree : List String) :
    List.Sorted normLe (scan_directory tree) := by
  unfold scan_directory
  exact List.sorted_insertionSort normLe _

/-- C8 counterexample: `"r/B.mp3"` is lexicographically smaller than
`"r/a.mp3"` as a raw string (uppercase letters sort below lowercase), yet the
scanner orders `"r/a.mp3"` first, because Windows paths compare
case-folded. -/
theorem scanner_sorted_counterexample :
    scan_directory ["r/B.mp3", "r/a.mp3"] = ["r/a.mp3", "r/B.mp3"] ∧
    strLt "r/B.mp3" "r/a.mp3" := by decide


/-! ## Decimal rendering: injectivity and case-fixedness -/

/-- The numeric value read back from a digit list. -/
def digitsVal (l : List Char) : Nat := l.foldl (fun acc c => acc * 10 + (c.toNat - 48)) 0

theorem digitChar_toNat {k : Nat} (h : k < 10) : (digitChar k).toNat = 48 + k := by
  have hv : (48 + k).isValidChar := Or.inl (by omega)
  rw [digitChar, Char.ofNat, dif_pos hv]
  rfl

theorem digitsVal_append_digit (l : List Char) (d : Char) :
    digitsVal (l ++ [d]) = digitsVal l * 10 + (d.toNat - 48) := by
  unfold digitsVal
  rw [List.foldl_append]
  rfl

theorem digitsVal_natDigitsFuel : ∀ (f n : Nat), n < f → digitsVal (natDigitsFuel f n) = n := by
  intro f
  induction f with
  | zero => intro n h; omega
  | succ f ih =>
    intro n h
    unfold natDigitsFuel
    by_cases hn : n < 10
    · rw [if_pos hn]
      unfold digitsVal
      simp [digitChar_toNat hn]
    · rw [if_neg hn]
      have h10 : n / 10 < f := by
        have := Nat.div_lt_self (by omega : 0 < n) (by omega : 1 < 10)
        omega
      rw [digitsVal_append_digit, ih (n / 10) h10, digitChar_toNat (Nat.mod_lt n (by omega))]
      omega

theorem natToString_toList_inj {m n : Nat}
    (h : (natToString m).toList = (natToString n).toList) : m = n := by
  have hm : digitsVal (natDigitsFuel (m + 1) m) = m :=
    digitsVal_natDigitsFuel (m + 1) m (by omega)
  have hn : digitsVal (natDigitsFuel (n + 1) n) = n :=
    digitsVal_natDigitsFuel (n + 1) n (by omega)
  have h' : natDigitsFuel (m + 1) m = natDigitsFuel (n + 1) n := by
    have := h
    rw [natToString, natToString, toList_asString, toList_asString] at this
    exact this
  rw [← hm, ← hn, h']

theorem mem_natDigitsFuel_digit :
    ∀ (f n : Nat), ∀ c ∈ natDigitsFuel f n, ∃ m, m < 10 ∧ c = digitChar m := by
  intro f
  induction f with
  | zero => intro n c hc; simp [natDigitsFuel] at hc
  | succ f ih =>
    intro n c hc
    unfold natDigitsFuel at hc
    by_cases hn : n < 10
    · rw [if_pos hn] at hc
      simp only [List.mem_singleton] at hc
      exact ⟨n, hn, hc⟩
    · rw [if_neg hn] at hc
      rcases List.mem_append.mp hc with h1 | h1
      · exact ih (n / 10) c h1
      · simp only [List.mem_singleton] at h1
        exact ⟨n % 10, Nat.mod_lt n (by omega), h1⟩

theorem toLower_digitChar {k : Nat} (h : k < 10) :
    Char.toLower (digitChar k) = digitChar k := by
  have htn := digitChar_toNat h
  unfold Char.toLower
  rw [htn]
  rw [if_neg (by omega)]

theorem map_toLower_natToString (k : Nat) :
    (natToString k).toList.map Char.toLower = (natToString k).toList := by
  rw [natToString, toList_asString]
  apply List.map_congr_left ?_ |>.trans (List.map_id _)
  intro c hc
  obtain ⟨m, hm, rfl⟩ := mem_natDigitsFuel_digit (k + 1) k c hc
  exact toLower_digitChar hm

theorem toList_append (s t : String) : (s ++ t).toList = s.toList ++ t.toList := rfl

theorem candidate_lower_inj (dir base ext : String) {k k' : Nat}
    (h : strLower (joinPath dir (candidateName base k ext)) =
         strLower (joinPath dir (candidateName base k' ext))) : k = k' := by
  have h' := congrArg String.toList h
  rw [toList_strLower, toList_strLower] at h'
  unfold joinPath candidateName at h'
  simp only [toList_append, List.map_append, List.append_assoc] at h'
  have h2 := List.append_cancel_left (List.append_cancel_left (List.append_cancel_left
    (List.append_cancel_left h')))
  rw [map_toLower_natToString, map_toLower_natToString] at h2
  exact natToString_toList_inj (List.append_cancel_right h2)


/-! ## Collision probing -/

theorem nodup_subset_length {l1 l2 : List String} (hn : l1.Nodup) (hs : l1 ⊆ l2) :
    l1.length ≤ l2.length :=
  calc l1.length = l1.toFinset.card := (List.toFinset_card_of_nodup hn).symm
    _ ≤ l2.toFinset.card := Finset.card_le_card (fun x hx => by
        rw [List.mem_toFinset] at hx ⊢
        exact hs hx)
    _ ≤ l2.length := l2.toFinset_card_le

theorem fsFind_congr (fs : FS) {p q : String} (h : strLower p = strLower q) :
    fsFind fs p = fsFind fs q := by
  unfold fsFind
  rw [h]

theorem mem_keys_of_fsExists {fs : FS} {p : String} (h : fsExists fs p = true) :
    strLower p ∈ fs.map (fun kv => strLower kv.1) := by
  unfold fsExists fsFind at h
  cases hkv : fs.find? (fun kv => strLower kv.1 == strLower p) with
  | none => rw [hkv] at h; simp at h
  | some kv =>
    have hmem := List.mem_of_find?_eq_some hkv
    have hbeq := List.find?_some hkv
    have heq : strLower kv.1 = strLower p := by simpa using hbeq
    exact heq ▸ List.mem_map_of_mem _ hmem

theorem exists_free_candidate (fs : FS) (dir base ext : String) (k0 : Nat) :
    ∃ j, k0 ≤ j ∧ j < k0 + (fs.length + 1) ∧
      fsExists fs (joinPath dir (candidateName base j ext)) = false := by
  by_contra hcon
  push_neg at hcon
  have hall : ∀ j ∈ List.range' k0 (fs.length + 1),
      strLower (joinPath dir (candidateName base j ext)) ∈
        fs.map (fun kv => strLower kv.1) := by
    intro j hj
    rw [List.mem_range'_1] at hj
    have hex : fsExists fs (joinPath dir (candidateName base j ext)) = true :=
      Bool.not_eq_false _ ▸ (hcon j hj.1 hj.2)
    exact mem_keys_of_fsExists hex
  have hinj : Function.Injective
      (fun j : Nat => strLower (joinPath dir (candidateName base j ext))) :=
    fun a b hab => candidate_lower_inj dir base ext hab
  have hnd : ((List.range' k0 (fs.length + 1)).map
      (fun j => strLower (joinPath dir (candidateName base j ext)))).Nodup :=
    (List.nodup_range' k0 (fs.length + 1)).map hinj
  have hsub : ((List.range' k0 (fs.length + 1)).map
      (fun j => strLower (joinPath dir (candidateName base j ext)))) ⊆
      fs.map (fun kv => strLower kv.1) := by
    intro x hx
    obtain ⟨j, hj, rfl⟩ := List.mem_map.mp hx
    exact hall j hj
  have hlen := nodup_subset_length hnd hsub
  simp only [List.length_map, List.length_range'] at hlen
  omega

theorem probeFuel_spec (fs : FS) (dir base ext : String) :
    ∀ (fuel k : Nat),
      (∃ j, k ≤ j ∧ j < k + fuel ∧
        fsExists fs (joinPath dir (candidateName base j ext)) = false) →
      ∃ j, k ≤ j ∧
        fsExists fs (joinPath dir (candidateName base j ext)) = false ∧
        (∀ i, k ≤ i → i < j →
          fsExists fs (joinPath dir (candidateName base i ext)) = true) ∧
        probeFuel fs dir base ext fuel k = joinPath dir (candidateName base j ext) := by
  intro fuel
  induction fuel with
  | zero =>
    intro k ⟨j, hj1, hj2, _⟩
    omega
  | succ fuel ih =>
    intro k hex
    by_cases hk : fsExists fs (joinPath dir (candidateName base k ext)) = true
    · obtain ⟨j, hj1, hj2, hj3⟩ := hex
      have hjk : k + 1 ≤ j := by
        rcases Nat.eq_or_lt_of_le hj1 with rfl | h
        · rw [hk] at hj3; exact absurd hj3 (by simp)
        · omega
      obtain ⟨j', hj'1, hj'2, hj'3, hj'4⟩ := ih (k + 1) ⟨j, hjk, by omega, hj3⟩
      refine ⟨j', by omega, hj'2, ?_, ?_⟩
      · intro i hi1 hi2
        rcases Nat.eq_or_lt_of_le hi1 with rfl | h
        · exact hk
        · exact hj'3 i h hi2
      · unfold probeFuel
        rw [if_pos hk]
        exact hj'4
    · refine ⟨k, le_rfl, by simpa using hk, by omega, ?_⟩
      unfold probeFuel
      rw [if_neg hk]

theorem resolveCollision_spec (fs : FS) (dir name : String)
    (h : fsExists fs (joinPath dir name) = true) :
    ∃ k, 1 ≤ k ∧
      fsExists fs (joinPath dir (candidateName (pathStem (joinPath dir name)) k
        (pathSuffix (joinPath dir name)))) = false ∧
      (∀ i, 1 ≤ i → i < k →
        fsExists fs (joinPath dir (candidateName (pathStem (joinPath dir name)) i
          (pathSuffix (joinPath dir name)))) = true) ∧
      resolveCollision fs dir name = joinPath dir (candidateName
        (pathStem (joinPath dir name)) k (pathSuffix (joinPath dir name))) := by
  obtain ⟨j, hj1, hj2, hj3⟩ :=
    exists_free_candidate fs dir (pathStem (joinPath dir name)) (pathSuffix (joinPath dir name)) 1
  obtain ⟨k, hk1, hk2, hk3, hk4⟩ :=
    probeFuel_spec fs dir (pathStem (joinPath dir name)) (pathSuffix (joinPath dir name))
      (fs.length + 1) 1 ⟨j, hj1, hj2, hj3⟩
  refine ⟨k, hk1, hk2, hk3, ?_⟩
  unfold resolveCollision
  rw [if_pos h]
  exact hk4

theorem resolveCollision_keep (fs : FS) (dir name : String)
    (h : fsExists fs (joinPath dir name) = false) :
    resolveCollision fs dir name = joinPath dir name := by
  unfold resolveCollision
  rw [if_neg (by simp [h])]

theorem resolveCollision_free (fs : FS) (dir name : String) :
    fsExists fs (resolveCollision fs dir name) = false := by
  by_cases h : fsExists fs (joinPath dir name) = true
  · obtain ⟨k, _, hfree, _, heq⟩ := resolveCollision_spec fs dir name h
    rw [heq]
    exact hfree
  · rw [resolveCollision_keep fs dir name (by simpa using h)]
    simpa using h

/-! ## Non-destructiveness of the executor -/

theorem copyFile_preserve {fs : FS} {src dest p c : String}
    (hdest : fsExists fs dest = false) (h : fsFind fs p = some c) :
    fsFind (copyFile fs src dest) p = some c := by
  unfold copyFile
  cases hs : fsFind fs src with
  | none => exact h
  | some content =>
    have hne : (strLower dest == strLower p) = false := by
      by_contra hb
      have hb' : strLower dest = strLower p := by
        have := Bool.not_eq_false _ ▸ hb
        simpa using this
      have : fsFind fs dest = some c := (fsFind_congr fs hb').symm ▸ h
      rw [fsExists, this] at hdest
      simp at hdest
    show fsFind ((dest, content) :: fs) p = some c
    unfold fsFind
    rw [List.find?_cons, hne]
    exact h

theorem execSuccessStep_preserve (err : String → Bool) (output_dir : String)
    (fs : FS) (r : RenameResult) {p c : String} (h : fsFind fs p = some c) :
    fsFind (execSuccessStep err output_dir fs r) p = some c := by
  unfold execSuccessStep
  by_cases he : err r.original_path = true
  · rw [if_pos he]; exact h
  · rw [if_neg he]
    exact copyFile_preserve (resolveCollision_free fs output_dir (r.new_name.getD "")) h

theorem execFailedStep_preserve (err : String → Bool) (failed_dir : String)
    (fs : FS) (r : RenameResult) {p c : String} (h : fsFind fs p = some c) :
    fsFind (execFailedStep err failed_dir fs r) p = some c := by
  unfold execFailedStep
  by_cases he : err r.original_path = true
  · rw [if_pos he]; exact h
  · rw [if_neg he]
    exact copyFile_preserve
      (resolveCollision_free fs failed_dir (lastComponent r.original_path)) h

theorem foldl_preserve_find {step : FS → RenameResult → FS}
    (hstep : ∀ (fs : FS) (r : RenameResult) (p c : String),
      fsFind fs p = some c → fsFind (step fs r) p = some c) :
    ∀ (l : List RenameResult) (fs : FS) (p c : String),
      fsFind fs p = some c → fsFind (l.foldl step fs) p = some c := by
  intro l
  induction l with
  | nil => intro fs p c h; exact h
  | cons r rs ih =>
    intro fs p c h
    exact ih (step fs r) p c (hstep fs r p c h)

/-- C3: the executor never mutates a pre-existing file: whatever the error
oracle does, every path bound in the initial filesystem (in particular every
file under the source root) is bound to the same content afterwards — copies
write only to destinations that the collision probing found free, and sources
are only read. -/
theorem execute_preserves_existing (err : String → Bool) (output_dir : String)
    (successful failed : List RenameResult) (fs0 : FS) (p c : String)
    (h : fsFind fs0 p = some c) :
    fsFind (execute_copy_rename err output_dir successful failed fs0) p = some c := by
  unfold execute_copy_rename
  apply foldl_preserve_find
    (fun fs r p c => execFailedStep_preserve err (joinPath output_dir "_failed") fs r)
  apply foldl_preserve_find (fun fs r p c => execSuccessStep_preserve err output_dir fs r)
  exact h

theorem execute_preserves_existing_witness :
    fsFind [("src/a.mp3", "payload")] "src/a.mp3" = some "payload" ∧
    fsFind (execute_copy_rename (fun x => x = "src/b.mp3") "src"
        [{ original_path := "src/a.mp3", new_name := some "a.mp3" },
         { original_path := "src/b.mp3", new_name := some "a.mp3" }] []
        [("src/a.mp3", "payload")]) "src/a.mp3" = some "payload" :=
  ⟨by decide,
    execute_preserves_existing (fun x => x = "src/b.mp3") "src"
      [{ original_path := "src/a.mp3", new_name := some "a.mp3" },
       { original_path := "src/b.mp3", new_name := some "a.mp3" }] []
      [("src/a.mp3", "payload")] "src/a.mp3" "payload" (by decide)⟩

/-- C6: collision resolution is deterministic incremental probing: a free
destination is used as is; an occupied one becomes `base (k)ext` for the
least `k ≥ 1` whose name is free (every smaller index being occupied) — the
same resolution serving the success tree and the failed tree; concretely,
three successes all generating `X.mp3` are written as `X.mp3`, `X (1).mp3`,
`X (2).mp3` in processing order, and two failed files with the same original
name land in `_failed/` as `a.mp3` and `a (1).mp3`. -/
theorem collision_probing :
    (∀ (fs : FS) (dir name : String),
      fsExists fs (joinPath dir name) = false →
        resolveCollision fs dir name = joinPath dir name) ∧
    (∀ (fs : FS) (dir name : String),
      fsExists fs (joinPath dir name) = true →
      ∃ k, 1 ≤ k ∧
        fsExists fs (joinPath dir (candidateName (pathStem (joinPath dir name)) k
          (pathSuffix (joinPath dir name)))) = false ∧
        (∀ i, 1 ≤ i → i < k →
          fsExists fs (joinPath dir (candidateName (pathStem (joinPath dir name)) i
            (pathSuffix (joinPath dir name)))) = true) ∧
        resolveCollision fs dir name = joinPath dir (candidateName
          (pathStem (joinPath dir name)) k (pathSuffix (joinPath dir name)))) ∧
    (execute_copy_rename (fun _ => false) "out"
        [{ original_path := "s1", new_name := some "X.mp3" },
         { original_path := "s2", new_name := some "X.mp3" },
         { original_path := "s3", new_name := some "X.mp3" }] []
        [("s1", "c1"), ("s2", "c2"), ("s3", "c3")] =
      [("out/X (2).mp3", "c3"), ("out/X (1).mp3", "c2"), ("out/X.mp3", "c1"),
       ("s1", "c1"), ("s2", "c2"), ("s3", "c3")]) ∧
    (execute_copy_rename (fun _ => false) "out" []
        [{ original_path := "s/a.mp3", new_name := none, success := false,
           reason := some .unsupportedFormat },
         { original_path := "t/a.mp3", new_name := none, success := false,
           reason := some .unsupportedFormat }]
        [("s/a.mp3", "d1"), ("t/a.mp3", "d2")] =
      [("out/_failed/a (1).mp3", "d2"), ("out/_failed/a.mp3", "d1"),
       ("s/a.mp3", "d1"), ("t/a.mp3", "d2")]) :=
  ⟨resolveCollision_keep, fun fs dir name h => resolveCollision_spec fs dir name h,
    by decide, by decide⟩

theorem collision_probing_witness :
    (fsExists [("out/X.mp3", "c")] (joinPath "out" "X.mp3") = true ∧
      ∃ k, 1 ≤ k ∧
        fsExists [("out/X.mp3", "c")] (joinPath "out" (candidateName
          (pathStem (joinPath "out" "X.mp3")) k (pathSuffix (joinPath "out" "X.mp3")))) = false ∧
        (∀ i, 1 ≤ i → i < k →
          fsExists [("out/X.mp3", "c")] (joinPath "out" (candidateName
            (pathStem (joinPath "out" "X.mp3")) i (pathSuffix (joinPath "out" "X.mp3")))) = true) ∧
        resolveCollision [("out/X.mp3", "c")] "out" "X.mp3" =
          joinPath "out" (candidateName (pathStem (joinPath "out" "X.mp3")) k
            (pathSuffix (joinPath "out" "X.mp3")))) ∧
    resolveCollision [] "out" "X.mp3" = joinPath "out" "X.mp3" :=
  ⟨⟨by decide, collision_probing.2.1 [("out/X.mp3", "c")] "out" "X.mp3" (by decide)⟩,
    collision_probing.1 [] "out" "X.mp3" (by decide)⟩

end MusicRenamer
